import Mathlib

/-!
# Verification of the release-list ordering engine (`app.js`)

Shallow embedding of the data-ordering core of `app.js`: the field
normalizers (`toBuild`, `toDate`), the semver comparator (`cmpSemver`),
the comparator registry (`sorters`), the default-sort heuristic
(`pickDefaultSort`), and the filter/sort pipeline
(`applyFilter`, `setSort`, `load`).

Modelling conventions:
* JS field values decoded from JSON are modelled by `JsVal`
  (undefined / null / finite number / string).  JS numbers are modelled
  exactly by rationals; IEEE-754 rounding of decimal literals is outside
  the model (all inputs exercised here are small integers, which doubles
  represent exactly).  `NaN`, `+Infinity` and `-Infinity` — which arise
  from JS *operations* in the source — are modelled by `JsNum`.
* Case mapping (`toLowerCase`) and whitespace trimming are modelled on
  the ASCII range, where Lean's `Char.toLower`/whitespace predicates
  agree with JS; the app's data and queries are ASCII.
* `Array.prototype.sort` is required by the ECMAScript spec to produce a
  stable, sorted permutation; for a consistent comparator that output is
  unique and equals the one produced by stable insertion sort, so the
  model uses `List.insertionSort`.  A comparator result of `NaN` is
  coerced by `SortCompare` to `+0` (treated as "equal"), which `cmpLe`
  reproduces.
-/

namespace AppJs

/-- A finite JS number, represented as an unnormalized fraction
`num / (dpred + 1)` — the denominator is stored minus one, so it is
positive by construction.  (All arithmetic on this type reduces in the
kernel, unlike `Rat` whose normalization is defined by well-founded
recursion; `JsRat.toRat` interprets a value as a rational.) -/
structure JsRat where
  num : Int
  dpred : Nat
deriving DecidableEq, Repr

/-- The (positive) denominator. -/
def JsRat.den (q : JsRat) : Nat := q.dpred + 1

/-- Build `n / d` (callers pass `d ≠ 0`). -/
def qMk (n : Int) (d : Nat) : JsRat := ⟨n, d - 1⟩

/-- The integer `n` as a `JsRat`. -/
def qInt (n : Int) : JsRat := ⟨n, 0⟩

/-- Negation. -/
def qNeg (q : JsRat) : JsRat := ⟨-q.num, q.dpred⟩

/-- Subtraction (cross-multiplied, unnormalized). -/
def qSub (a b : JsRat) : JsRat :=
  qMk (a.num * (b.den : Int) - b.num * (a.den : Int)) (a.den * b.den)

/-- Strict order, by cross-multiplication (denominators are positive). -/
def qLt (a b : JsRat) : Bool :=
  decide (a.num * (b.den : Int) < b.num * (a.den : Int))

/-- Non-strict order. -/
def qLe (a b : JsRat) : Bool :=
  decide (a.num * (b.den : Int) ≤ b.num * (a.den : Int))

/-- Value equality (`1/2 = 2/4`). -/
def qEqv (a b : JsRat) : Bool :=
  decide (a.num * (b.den : Int) = b.num * (a.den : Int))

/-- Is the value zero? -/
def qIsZero (q : JsRat) : Bool := decide (q.num = 0)

/-- The rational value of a `JsRat`. -/
def JsRat.toRat (q : JsRat) : ℚ := (q.num : ℚ) / (q.den : ℚ)

/-- Structural-fuel `gcd` (kernel-reducible, used only for printing). -/
def gcdF : Nat → Nat → Nat → Nat
  | 0, _, y => y
  | f + 1, x, y => if x = 0 then y else gcdF f (y % x) x

/-- `Nat.gcd` via `gcdF`. -/
def qGcd (x y : Nat) : Nat := gcdF (x + 1) x y

/-- Reduce a fraction to lowest terms. -/
def qNorm (q : JsRat) : JsRat :=
  let g := qGcd q.num.natAbs q.den
  if g = 0 then q else qMk (q.num / (g : Int)) (q.den / g)

/-- A JavaScript value as it can occur in a field of a release record
decoded from JSON: absent (`undefined`), `null`, a (finite) number, or a
string. -/
inductive JsVal where
  | undef
  | null
  | num (q : JsRat)
  | str (s : String)
deriving DecidableEq, Repr

/-- A JavaScript number as produced by the numeric operations in
`app.js`: `NaN`, the two infinities, or a finite value. -/
inductive JsNum where
  | nan
  | posInf
  | negInf
  | fin (q : JsRat)
deriving DecidableEq, Repr

/-- `Number.isFinite`. -/
def JsNum.isFin : JsNum → Bool
  | .fin _ => true
  | _ => false

/-- JS `WhiteSpace` / line terminator characters (ASCII range). -/
def isJsSpace (c : Char) : Bool :=
  c = ' ' || c = '\t' || c = '\n' || c = '\r' || c = '\x0b' || c = '\x0c'

/-- Trim JS whitespace from both ends of a character list. -/
def trimList (cs : List Char) : List Char :=
  ((cs.dropWhile isJsSpace).reverse.dropWhile isJsSpace).reverse

/-- Value of a list of decimal digit characters. -/
def digitsToNat (ds : List Char) : Nat :=
  ds.foldl (fun a c => a * 10 + (c.toNat - 48)) 0

/-- JS `parseInt(s, 10)`: skip leading whitespace, optional sign, then
the longest prefix of decimal digits; `none` models a `NaN` result.
(Exact integer values; double rounding of very long digit strings is
outside the model.) -/
def parseIntJs (s : String) : Option Int :=
  let core : List Char → Option Int := fun cs =>
    let ds := cs.takeWhile Char.isDigit
    if ds.isEmpty then none else some ((digitsToNat ds : Nat) : Int)
  match s.toList.dropWhile isJsSpace with
  | '-' :: rest => (core rest).map (fun n => -n)
  | '+' :: rest => core rest
  | rest => core rest

/-- Unsigned decimal mantissa of a JS `StrDecimalLiteral`:
`digits [. digits?]` or `. digits`; returns the value and the unconsumed
rest (a potential exponent part). -/
def parseDecMantissa (cs : List Char) : Option (JsRat × List Char) :=
  let intPart := cs.takeWhile Char.isDigit
  let rest1 := cs.drop intPart.length
  match rest1 with
  | '.' :: r2 =>
    let fracPart := r2.takeWhile Char.isDigit
    let rest2 := r2.drop fracPart.length
    if intPart.isEmpty && fracPart.isEmpty then none
    else some (qMk ((digitsToNat intPart : Int) * ((10 : Int) ^ fracPart.length)
      + (digitsToNat fracPart : Int)) ((10 : Nat) ^ fracPart.length), rest2)
  | _ => if intPart.isEmpty then none else some (qInt (digitsToNat intPart : Int), rest1)

/-- Exponent part of a JS decimal literal: empty, or `e`/`E`, optional
sign, digits, consuming the whole rest. -/
def parseExpPart (cs : List Char) : Option Int :=
  match cs with
  | [] => some 0
  | c :: r =>
    if c = 'e' || c = 'E' then
      let sr : Int × List Char := match r with
        | '+' :: rr => (1, rr)
        | '-' :: rr => (-1, rr)
        | rr => (1, rr)
      let ds := sr.2.takeWhile Char.isDigit
      if ds.isEmpty || !(sr.2.drop ds.length).isEmpty then none
      else some (sr.1 * ((digitsToNat ds : Nat) : Int))
    else none

/-- Scale a mantissa by `10 ^ e`. -/
def qScale10 (m : JsRat) (e : Int) : JsRat :=
  if 0 ≤ e then ⟨m.num * (10 : Int) ^ e.toNat, m.dpred⟩
  else qMk m.num (m.den * (10 : Nat) ^ (-e).toNat)

/-- A full JS decimal literal (mantissa and optional exponent). -/
def parseDec (cs : List Char) : Option JsRat :=
  match parseDecMantissa cs with
  | none => none
  | some mr =>
    match parseExpPart mr.2 with
    | none => none
    | some e => some (qScale10 mr.1 e)

/-- Digit predicate and value for radix-`b` literals (`0x`, `0o`, `0b`). -/
def radixDigitVal (c : Char) : Nat :=
  if c.isDigit then c.toNat - 48
  else if 'a' ≤ c && c ≤ 'z' then c.toNat - 87
  else c.toNat - 55

/-- Non-decimal integer literal body in radix `b`. -/
def parseRadix (b : Nat) (cs : List Char) : Option JsRat :=
  if cs.isEmpty || !cs.all (fun c => radixDigitVal c < b && (c.isDigit || c.isAlpha)) then none
  else some (qInt ((cs.foldl (fun a c => a * b + radixDigitVal c) 0 : Nat) : Int))

/-- Signed decimal part of JS `StringToNumber` (after trimming):
optional sign, then `Infinity` or a decimal literal. -/
def decSigned (t : List Char) : JsNum :=
  let nb : Bool × List Char := match t with
    | '-' :: r => (true, r)
    | '+' :: r => (false, r)
    | r => (false, r)
  if nb.2 = "Infinity".toList then (if nb.1 then .negInf else .posInf)
  else match parseDec nb.2 with
    | some q => .fin (if nb.1 then qNeg q else q)
    | none => .nan

/-- JS `StringToNumber`: trim, empty means `0`, else a numeric literal
(decimal with optional sign, `Infinity`, or unsigned `0x`/`0o`/`0b`
literal); anything else is `NaN`. -/
def jsStrToNum (s : String) : JsNum :=
  match trimList s.toList with
  | [] => .fin (qInt 0)
  | '0' :: x :: r =>
    if x = 'x' || x = 'X' then (match parseRadix 16 r with | some q => .fin q | none => .nan)
    else if x = 'o' || x = 'O' then (match parseRadix 8 r with | some q => .fin q | none => .nan)
    else if x = 'b' || x = 'B' then (match parseRadix 2 r with | some q => .fin q | none => .nan)
    else decSigned ('0' :: x :: r)
  | t => decSigned t

/-- JS `ToNumber` on record field values (`Number(v)`). -/
def jsToNumber : JsVal → JsNum
  | .undef => .nan
  | .null => .fin (qInt 0)
  | .num q => .fin q
  | .str s => jsStrToNum s

/-- JS truthiness of a field value. -/
def jsTruthy : JsVal → Bool
  | .undef => false
  | .null => false
  | .num q => !qIsZero q
  | .str s => decide (s ≠ "")

/-- Smallest `k` with `10 ^ k` divisible by `d` (for printing
terminating decimals). -/
def decPow (d : Nat) : Option Nat :=
  (List.range 64).find? fun k => (10 : Nat) ^ k % d = 0

/-- Decimal digits of a natural number, with structural fuel so that it
reduces in the kernel. -/
def natDigsF : Nat → Nat → List Char → List Char
  | 0, _, acc => acc
  | f + 1, n, acc =>
    if n = 0 then acc else natDigsF f (n / 10) (Char.ofNat (48 + n % 10) :: acc)

/-- JS decimal printing of an integer. -/
def intToJsString (n : Int) : String :=
  if n = 0 then "0"
  else (if n < 0 then "-" else "") ++ String.mk (natDigsF (n.natAbs + 1) n.natAbs [])

/-- JS `ToString` on a number, for the values that occur in the data:
integers print as usual, non-integral terminating decimals print with a
point.  (JS exponent notation for magnitudes ≥ 1e21 and shortest-round-
trip printing of non-terminating binary fractions are outside the
model; no record exercised here has such a build value.) -/
def ratToJsString (q0 : JsRat) : String :=
  let q := qNorm q0
  if q.den = 1 then intToJsString q.num
  else match decPow q.den with
    | some k =>
      let scaled : Int := q.num * (((10 : Nat) ^ k : Nat) / q.den : Nat)
      let sgn := if scaled < 0 then "-" else ""
      let ds := (intToJsString scaled.natAbs).toList
      let pad := if ds.length ≤ k then List.replicate (k + 1 - ds.length) '0' ++ ds else ds
      let point := pad.length - k
      sgn ++ String.mk (pad.take point) ++ "." ++ String.mk (pad.drop point)
    | none => intToJsString q.num ++ "/" ++ intToJsString (q.den : Int)

/-- JS `ToString` on a field value. -/
def jsToString : JsVal → String
  | .undef => "undefined"
  | .null => "null"
  | .num q => ratToJsString q
  | .str s => s

/-- `String(v || '')` as used by `cmpSemver` and `looksLikeSemver`. -/
def jsOrEmpty (v : JsVal) : String :=
  if jsTruthy v then jsToString v else ""

/-! ## Dates (`new Date(v).getTime()`) -/

/-- Days in a month of the (proleptic Gregorian) civil calendar. -/
def daysInMonth (y : Int) (m : Nat) : Nat :=
  if m = 2 then (if y % 4 = 0 && (y % 100 ≠ 0 || y % 400 = 0) then 29 else 28)
  else if m = 4 || m = 6 || m = 9 || m = 11 then 30 else 31

/-- Days since 1970-01-01 of a civil date (standard civil-calendar day
count; all intermediate divisions act on non-negative values for the
four-digit years accepted by `parseIsoDate`). -/
def daysFromCivil (y : Int) (m d : Nat) : Int :=
  let y1 : Int := if m ≤ 2 then y - 1 else y
  let era : Int := (if 0 ≤ y1 then y1 else y1 - 399) / 400
  let yoe : Int := y1 - era * 400
  let doy : Int := (153 * ((m : Int) + (if 2 < m then -3 else 9)) + 2) / 5 + (d : Int) - 1
  let doe : Int := yoe * 365 + yoe / 4 - yoe / 100 + doy
  era * 146097 + doe - 719468

/-- ECMAScript date-only ISO form `YYYY-MM-DD` (UTC midnight), the
format the app's dataset uses; the result is a millisecond timestamp. -/
def parseIsoDate (cs : List Char) : Option Int :=
  match cs with
  | [y1, y2, y3, y4, '-', m1, m2, '-', d1, d2] =>
    if [y1, y2, y3, y4, m1, m2, d1, d2].all Char.isDigit then
      let y : Int := (digitsToNat [y1, y2, y3, y4] : Nat)
      let m := digitsToNat [m1, m2]
      let d := digitsToNat [d1, d2]
      if 1 ≤ m && m ≤ 12 && 1 ≤ d && d ≤ daysInMonth y m then
        some (daysFromCivil y m d * 86400000)
      else none
    else none
  | _ => none

/-- ECMAScript `TimeClip` applied by the `Date` constructor to a numeric
argument (range check, then truncation toward zero). -/
def jsTimeClip (q : JsRat) : JsNum :=
  if qLt q (qInt (-8640000000000000)) || qLt (qInt 8640000000000000) q then .nan
  else .fin (qInt (q.num.tdiv (q.den : Int)))

/-- `new Date(v).getTime()`.  Strings are parsed in the date-only ISO
form the dataset uses; other string shapes (whose acceptance is partly
engine-specific) are modelled as invalid dates (`NaN`). -/
def jsDateTime : JsVal → JsNum
  | .undef => .nan
  | .null => .fin (qInt 0)
  | .num q => jsTimeClip q
  | .str s =>
    match parseIsoDate s.toList with
    | some ms => .fin (qInt ms)
    | none => .nan

/-! ## Release records and field normalizers -/

/-- A release record (`§3` of the spec): `version`, `build`, `date`,
`channel` are arbitrary JSON field values; `changes` and `tags` are the
text sequences the data model specifies (`links` is used only by the
out-of-scope renderer and is omitted). -/
structure Release where
  version : JsVal
  build : JsVal
  date : JsVal
  channel : JsVal
  changes : List String
  tags : List String
deriving DecidableEq, Repr

/-- `toDate` of `app.js`: timestamp of the date field, `-Infinity` when
not a finite time value. -/
def toDate (v : JsVal) : JsNum :=
  match jsDateTime v with
  | .fin q => .fin q
  | _ => .negInf

/-- `toBuild` of `app.js`: `Number(b)` when finite, else `-Infinity`. -/
def toBuild (v : JsVal) : JsNum :=
  match jsToNumber v with
  | .fin q => .fin q
  | _ => .negInf

/-! ## Semver parsing and comparison (`cmpSemver`) -/

/-- JS `String.prototype.split` with a one-character separator. -/
def splitChar (sep : Char) : List Char → List (List Char)
  | [] => [[]]
  | c :: rest =>
    let r := splitChar sep rest
    if c = sep then [] :: r
    else
      match r with
      | h :: t => (c :: h) :: t
      | [] => [[c]]

/-- The result of `cmpSemver`'s internal `parse`: the first three
numeric components and the pre-release text (`pre`), kept as a character
list. -/
structure SV where
  n0 : Int
  n1 : Int
  n2 : Int
  pre : List Char
deriving DecidableEq, Repr

/-- Strip one leading `v`/`V` (the `.replace(/^v/i,'')`). -/
def stripLeadV (cs : List Char) : List Char :=
  match cs with
  | c :: r => if c = 'v' || c = 'V' then r else c :: r
  | [] => []

/-- `parse` inside `cmpSemver`: `String(v || '')`, strip a leading `v`,
`split('-')` destructured as `[core, pre='']` (so `pre` is the segment
between the first and second dash), `core.split('.')` with each piece
`parseInt(n,10) || 0`, padded with zeros to three components. -/
def svParse (v : JsVal) : SV :=
  let s := stripLeadV (jsOrEmpty v).toList
  let parts := splitChar '-' s
  let core := parts.headD []
  let pre := (parts[1]?).getD []
  let nums := (splitChar '.' core).map (fun cs => (parseIntJs (String.mk cs)).getD 0)
  ⟨(nums[0]?).getD 0, (nums[1]?).getD 0, (nums[2]?).getD 0, pre⟩

/-- JS `<` on strings: lexicographic comparison of the character
sequences (code units; identical to code points on the data's
alphabet). -/
def lexLt : List Char → List Char → Bool
  | _, [] => false
  | [], _ :: _ => true
  | a :: as, b :: bs => if a < b then true else if b < a then false else lexLt as bs

/-- The comparison performed by `cmpSemver` on two parsed versions: the
numeric components in order (the source's `for` loop unrolled), then
the pre-release rules of lines 34–36. -/
def svCmp (A B : SV) : Int :=
  if A.n0 ≠ B.n0 then A.n0 - B.n0
  else if A.n1 ≠ B.n1 then A.n1 - B.n1
  else if A.n2 ≠ B.n2 then A.n2 - B.n2
  else if A.pre ≠ [] ∧ B.pre = [] then -1
  else if A.pre = [] ∧ B.pre ≠ [] then 1
  else if lexLt A.pre B.pre then -1
  else if lexLt B.pre A.pre then 1
  else 0

/-- `cmpSemver(a, b)` of `app.js`. -/
def cmpSemver (a b : JsVal) : Int :=
  svCmp (svParse a) (svParse b)

/-! ## `looksLikeSemver` -/

/-- Character class `[0-9A-Za-z.-]` of the pre-release suffix. -/
def preTagChar (c : Char) : Bool :=
  c.isDigit || c.isAlpha || c = '.' || c = '-'

/-- Match `\d+` and return the rest, or fail. -/
def digits1 (cs : List Char) : Option (List Char) :=
  let ds := cs.takeWhile Char.isDigit
  if ds.isEmpty then none else some (cs.drop ds.length)

/-- The regex `^[vV]?\d+\.\d+\.\d+(?:-[0-9A-Za-z.-]+)?$` (each `\d+` is
followed by a character outside its class, so greedy matching without
backtracking is exact). -/
def semverShape (cs : List Char) : Bool :=
  match digits1 (stripLeadV cs) with
  | none => false
  | some r1 =>
    match r1 with
    | '.' :: r2 =>
      match digits1 r2 with
      | none => false
      | some r3 =>
        match r3 with
        | '.' :: r4 =>
          match digits1 r4 with
          | none => false
          | some r5 =>
            match r5 with
            | [] => true
            | '-' :: r6 => !r6.isEmpty && r6.all preTagChar
            | _ => false
        | _ => false
    | _ => false

/-- `looksLikeSemver` of `app.js`. -/
def looksLikeSemver (v : JsVal) : Bool :=
  semverShape (jsOrEmpty v).toList

/-! ## The comparator registry (`sorters`) -/

/-- JS subtraction on the values `toBuild`/`toDate` produce (finite
numbers and `-Infinity`); defined on all of `JsNum` the way IEEE
arithmetic behaves. -/
def esub : JsNum → JsNum → JsNum
  | .nan, _ => .nan
  | _, .nan => .nan
  | .posInf, .posInf => .nan
  | .posInf, _ => .posInf
  | .negInf, .negInf => .nan
  | .negInf, _ => .negInf
  | .fin a, .fin b => .fin (qSub a b)
  | .fin _, .posInf => .negInf
  | .fin _, .negInf => .posInf

/-- Falsiness of a JS number (`NaN` and `±0`). -/
def jsFalsyNum : JsNum → Bool
  | .nan => true
  | .fin q => qIsZero q
  | _ => false

/-- JS `x || y` on numbers. -/
def jsOr (x y : JsNum) : JsNum :=
  if jsFalsyNum x then y else x

/-- Type of the registered comparators. -/
abbrev Cmp := Release → Release → JsNum

/-- `sorters['build-desc']`. -/
def buildDesc : Cmp := fun a b =>
  jsOr (jsOr (esub (toBuild b.build) (toBuild a.build))
             (esub (toDate b.date) (toDate a.date)))
       (.fin (qInt (cmpSemver b.version a.version)))

/-- `sorters['build-asc']`. -/
def buildAsc : Cmp := fun a b =>
  jsOr (jsOr (esub (toBuild a.build) (toBuild b.build))
             (esub (toDate a.date) (toDate b.date)))
       (.fin (qInt (cmpSemver a.version b.version)))

/-- `sorters['semver-desc']`. -/
def semverDesc : Cmp := fun a b =>
  jsOr (.fin (qInt (cmpSemver a.version b.version * (-1))))
       (esub (toDate b.date) (toDate a.date))

/-- `sorters['semver-asc']`. -/
def semverAsc : Cmp := fun a b =>
  jsOr (.fin (qInt (cmpSemver a.version b.version)))
       (esub (toDate a.date) (toDate b.date))

/-- `sorters['date-desc']`. -/
def dateDesc : Cmp := fun a b =>
  jsOr (esub (toDate b.date) (toDate a.date))
       (esub (toBuild b.build) (toBuild a.build))

/-- `sorters['date-asc']`. -/
def dateAsc : Cmp := fun a b =>
  jsOr (esub (toDate a.date) (toDate b.date))
       (esub (toBuild a.build) (toBuild b.build))

/-- The own keys of the `sorters` dispatch object: looking up one of
the six registered names yields its comparator; any other OWN lookup is
`undefined` (`none`).  Membership tests and truthiness of a lookup must
additionally see the `Object.prototype`-inherited names — see
`inSorters`. -/
def sorters (k : String) : Option Cmp :=
  if k = "build-desc" then some buildDesc
  else if k = "build-asc" then some buildAsc
  else if k = "semver-desc" then some semverDesc
  else if k = "semver-asc" then some semverAsc
  else if k = "date-desc" then some dateDesc
  else if k = "date-asc" then some dateAsc
  else none

/-- The property names the `sorters` object literal inherits from
`Object.prototype`.  JS's `value in sorters` (line 111) reports these
as present, and `sorters[name]` yields the inherited member — a
function or an object, in every case truthy (line 137). -/
def protoKeys : List String :=
  ["constructor", "hasOwnProperty", "isPrototypeOf", "propertyIsEnumerable",
   "toLocaleString", "toString", "valueOf", "__defineGetter__", "__defineSetter__",
   "__lookupGetter__", "__lookupSetter__", "__proto__"]

/-- JS `v in sorters`, and equally the truthiness of `sorters[v]`: true
exactly for the six own keys and the `Object.prototype`-inherited
property names. -/
def inSorters (v : String) : Bool :=
  (sorters v).isSome || protoKeys.contains v

/-! ## Default-sort heuristic -/

/-- `pickDefaultSort` of `app.js`. -/
def pickDefaultSort (arr : List Release) : String :=
  if arr.any (fun r => (jsToNumber r.build).isFin) then "build-desc"
  else if arr.all (fun r => looksLikeSemver r.version) then "semver-desc"
  else "date-desc"

/-! ## Sorting (`Array.prototype.sort` with a registered comparator) -/

/-- `SortCompare`'s view of a comparator result: does `a` sort no later
than `b`?  A `NaN` result is coerced to `+0` (equal). -/
def cmpLe (c : Cmp) (a b : Release) : Bool :=
  match c a b with
  | .nan => true
  | .negInf => true
  | .posInf => false
  | .fin q => qLe q (qInt 0)

/-- The sort-order relation induced by a comparator. -/
def rle (c : Cmp) (a b : Release) : Prop := cmpLe c a b = true

instance (c : Cmp) : DecidableRel (rle c) := fun a b => instDecidableEqBool (cmpLe c a b) true

/-- `array.sort(comparefn)`: the ECMAScript spec requires a stable,
sorted permutation; for a consistent comparator that result is unique
and is computed by stable insertion sort. -/
def jsSortBy (c : Cmp) (l : List Release) : List Release :=
  List.insertionSort (rle c) l

/-! ## Filter/sort pipeline and session state -/

/-- The `state` object of `app.js`. -/
structure AppState where
  data : List Release
  filtered : List Release
  sort : String
deriving DecidableEq, Repr

/-- `const state = { data: [], filtered: [], sort: 'build-desc' }`. -/
def initialState : AppState := ⟨[], [], "build-desc"⟩

/-- `list.sort(sorters[k])`.  For a registered key the stable sort
runs with the named comparator.  The `none` branch covers keys that
are not registered comparators, which a session CAN install (an
`Object.prototype`-inherited name passes the `in` test of `setSort`
and the truthiness test of `load`): the inherited members are not the
app's comparators — each call either coerces to `NaN` (treated as `±0`
by `SortCompare`, so the stable sort leaves the order unchanged) or
the sort call throws a `TypeError` before the view is reassigned (the
non-callable `__proto__`, and the `__defineGetter__`/`__defineSetter__`
members, which reject a non-callable argument).  In every case the
resulting view is the input list unchanged, which the identity branch
captures; the escaping exception itself is outside the state model. -/
def sortView (k : String) (l : List Release) : List Release :=
  match sorters k with
  | some c => jsSortBy c l
  | none => l

/-- `el.filter.value.toLowerCase().trim()` (ASCII case mapping). -/
def normQuery (raw : String) : String :=
  String.mk (trimList (raw.toList.map Char.toLower))

/-- `needle` occurs as a contiguous substring of `hay`
(`String.prototype.includes`). -/
def prefixMatch : List Char → List Char → Bool
  | [], _ => true
  | _ :: _, [] => false
  | a :: as, b :: bs => a = b && prefixMatch as bs

/-- `hay.includes(needle)`. -/
def hasSub (hay needle : List Char) : Bool :=
  if prefixMatch needle hay then true
  else
    match hay with
    | [] => false
    | _ :: t => hasSub t needle

/-- The search haystack of `applyFilter`:
`[version, date, channel, build, ...changes, ...tags]
  .filter(Boolean).join(' ').toLowerCase()`. -/
def hayOf (r : Release) : List Char :=
  let parts : List JsVal :=
    [r.version, r.date, r.channel, r.build]
      ++ r.changes.map JsVal.str ++ r.tags.map JsVal.str
  (String.intercalate " " ((parts.filter jsTruthy).map jsToString)).toList.map Char.toLower

/-- The filter predicate of `applyFilter` applied to one record
(`q` is already lowercased and trimmed). -/
def recMatches (q : String) (r : Release) : Bool :=
  if q = "" then true else hasSub (hayOf r) q.toList

/-- `applyFilter()`: re-filter `state.data` with the current query text
and sort with the current comparator. -/
def applyFilter (rawq : String) (s : AppState) : AppState :=
  let q := normQuery rawq
  ⟨s.data, sortView s.sort (s.data.filter (recMatches q)), s.sort⟩

/-- `setSort(value)`: `state.sort = value in sorters ? value : state.sort`,
then re-sort the current filtered view in place.  The `in` test also
accepts `Object.prototype`-inherited names (`inSorters`), so such a
name DOES replace the key; the subsequent sort leaves the view
unchanged (see `sortView`). -/
def setSort (v : String) (s : AppState) : AppState :=
  let k := if inSorters v then v else s.sort
  ⟨s.data, sortView k s.filtered, k⟩

/-- The sort key `load()` installs, from the optional `?sort=` query
parameter: `(fromUrl && sorters[fromUrl]) ? fromUrl : 'build-asc'`.
The lookup `sorters[fromUrl]` is truthy for the six registered keys
AND for `Object.prototype`-inherited names (`inSorters`). -/
def loadSortKey (fromUrl : Option String) : String :=
  match fromUrl with
  | none => "build-asc"
  | some u => if u ≠ "" ∧ inSorters u then u else "build-asc"

/-- `load()` after a successful fetch of the record array `arr`
(the fetch/JSON boundary itself is out of scope). -/
def loadState (arr : List Release) (fromUrl : Option String) : AppState :=
  ⟨arr, sortView (loadSortKey fromUrl) arr, loadSortKey fromUrl⟩

/-- The session states the app can be in: the initial state, a state
just after `load`, and closure under the two event handlers. -/
inductive Reachable : AppState → Prop where
  | init : Reachable initialState
  | load : ∀ (arr : List Release) (u : Option String), Reachable (loadState arr u)
  | filt : ∀ (q : String) (s : AppState), Reachable s → Reachable (applyFilter q s)
  | sel : ∀ (v : String) (s : AppState), Reachable s → Reachable (setSort v s)

/-! ## Interpretation of `JsRat` arithmetic in `ℚ` -/

theorem JsRat.den_pos (q : JsRat) : 0 < q.den := Nat.succ_pos q.dpred

theorem qMk_den {d : Nat} (hd : d ≠ 0) (n : Int) : (qMk n d).den = d := by
  show d - 1 + 1 = d
  omega

theorem qMk_num (n : Int) (d : Nat) : (qMk n d).num = n := rfl

theorem den_cast_pos (q : JsRat) : (0 : ℚ) < (q.den : ℚ) := by
  exact_mod_cast q.den_pos

theorem qLt_iff (a b : JsRat) : qLt a b = true ↔ a.toRat < b.toRat := by
  unfold qLt JsRat.toRat
  rw [div_lt_div_iff (den_cast_pos a) (den_cast_pos b), decide_eq_true_eq]
  constructor
  · intro h; exact_mod_cast h
  · intro h; exact_mod_cast h

theorem qLe_iff (a b : JsRat) : qLe a b = true ↔ a.toRat ≤ b.toRat := by
  unfold qLe JsRat.toRat
  rw [div_le_div_iff (den_cast_pos a) (den_cast_pos b), decide_eq_true_eq]
  constructor
  · intro h; exact_mod_cast h
  · intro h; exact_mod_cast h

theorem qIsZero_iff (q : JsRat) : qIsZero q = true ↔ q.toRat = 0 := by
  unfold qIsZero JsRat.toRat
  rw [div_eq_zero_iff, decide_eq_true_eq]
  constructor
  · intro h; exact Or.inl (by exact_mod_cast h)
  · intro h
    rcases h with h | h
    · exact_mod_cast h
    · exact absurd h (by exact_mod_cast (den_cast_pos q).ne.symm)

theorem qInt_toRat (n : Int) : (qInt n).toRat = (n : ℚ) := by
  unfold qInt JsRat.toRat JsRat.den
  norm_num

theorem qSub_toRat (a b : JsRat) : (qSub a b).toRat = a.toRat - b.toRat := by
  unfold qSub JsRat.toRat
  rw [qMk_num, qMk_den (Nat.mul_ne_zero a.den_pos.ne' b.den_pos.ne')]
  have ha := den_cast_pos a
  have hb := den_cast_pos b
  field_simp
  push_cast
  ring

/-! ## Comparison functions and their laws -/

/-- Sign classification of a comparator result, as the sort routine
consumes it: `NaN` is coerced to "equal". -/
def cmpZ : JsNum → Ordering
  | .nan => .eq
  | .negInf => .lt
  | .posInf => .gt
  | .fin q => if qLt q (qInt 0) then .lt else if qIsZero q then .eq else .gt

/-- A comparison function inducing a total preorder: swap-antisymmetric,
transitive on "not greater", with `eq` a congruence. -/
structure LawfulCmp {α : Type} (f : α → α → Ordering) : Prop where
  symm : ∀ a b, f a b = (f b a).swap
  le_trans : ∀ a b c, f a b ≠ .gt → f b c ≠ .gt → f a c ≠ .gt
  eq_congr : ∀ a b c, f a b = .eq → f a c = f b c

theorem ordLt_then (x : Ordering) : Ordering.lt.then x = .lt := rfl

theorem ordGt_then (x : Ordering) : Ordering.gt.then x = .gt := rfl

theorem ordEq_then (x : Ordering) : Ordering.eq.then x = x := rfl

theorem ordSwap_then (o p : Ordering) : (o.then p).swap = o.swap.then p.swap := by
  cases o <;> rfl

theorem ordThen_assoc (o p q : Ordering) : (o.then p).then q = o.then (p.then q) := by
  cases o <;> rfl

theorem ordSwap_invol (o : Ordering) : o.swap.swap = o := by
  cases o <;> rfl

theorem ordThen_ne_eq (o p : Ordering) (h : o ≠ .eq) : o.then p = o := by
  cases o
  · rfl
  · exact absurd rfl h
  · rfl

theorem ordThen_eq_eq {o p : Ordering} (h : o.then p = .eq) : o = .eq ∧ p = .eq := by
  cases o
  · rw [ordLt_then] at h; exact absurd h (by decide)
  · exact ⟨rfl, h⟩
  · rw [ordGt_then] at h; exact absurd h (by decide)

theorem LawfulCmp.then_comp {α : Type} {f g : α → α → Ordering}
    (hf : LawfulCmp f) (hg : LawfulCmp g) :
    LawfulCmp (fun a b => (f a b).then (g a b)) := by
  constructor
  · intro a b
    rw [hf.symm a b, hg.symm a b, ordSwap_then]
  · intro a b c h1 h2
    have hfab : f a b ≠ .gt := fun hh => h1 (by rw [hh]; rfl)
    have hfbc : f b c ≠ .gt := fun hh => h2 (by rw [hh]; rfl)
    cases hab : f a b with
    | gt => exact absurd hab hfab
    | lt =>
      have h3 : f a c ≠ .gt := hf.le_trans a b c hfab hfbc
      have h4 : f a c ≠ .eq := by
        intro he
        have h5 := hf.eq_congr a c b he
        rw [hab] at h5
        have h6 := hf.symm c b
        rw [← h5] at h6
        have h7 : f b c = .gt := by
          rw [← ordSwap_invol (f b c), ← h6]
          rfl
        exact hfbc h7
      cases hac : f a c with
      | lt => rw [ordLt_then]; decide
      | eq => exact absurd hac h4
      | gt => exact absurd hac h3
    | eq =>
      have hgab : g a b ≠ .gt := by rw [hab] at h1; rwa [ordEq_then] at h1
      cases hbc : f b c with
      | gt => exact absurd hbc hfbc
      | lt =>
        have hac : f a c = .lt := by rw [hf.eq_congr a b c hab, hbc]
        rw [hac, ordLt_then]; decide
      | eq =>
        have hgbc : g b c ≠ .gt := by rw [hbc] at h2; rwa [ordEq_then] at h2
        have hac : f a c = .eq := by rw [hf.eq_congr a b c hab, hbc]
        rw [hac, ordEq_then]
        exact hg.le_trans a b c hgab hgbc
  · intro a b c h
    have h0 := ordThen_eq_eq h
    rw [hf.eq_congr a b c h0.1, hg.eq_congr a b c h0.2]

theorem LawfulCmp.comp {κ α : Type} {f : κ → κ → Ordering} (hf : LawfulCmp f) (φ : α → κ) :
    LawfulCmp (fun a b => f (φ a) (φ b)) :=
  ⟨fun a b => hf.symm _ _, fun a b c => hf.le_trans _ _ _, fun a b c => hf.eq_congr _ _ _⟩

theorem LawfulCmp.of_eqFun {α : Type} {f g : α → α → Ordering}
    (h : ∀ a b, f a b = g a b) (hf : LawfulCmp f) : LawfulCmp g := by
  constructor
  · intro a b
    rw [← h a b, ← h b a]
    exact hf.symm a b
  · intro a b c h1 h2
    rw [← h a b] at h1
    rw [← h b c] at h2
    rw [← h a c]
    exact hf.le_trans a b c h1 h2
  · intro a b c h1
    rw [← h a b] at h1
    rw [← h a c, ← h b c]
    exact hf.eq_congr a b c h1

/-- Three-way comparison from a linear order. -/
def lcmp {β : Type} [LinearOrder β] (x y : β) : Ordering :=
  if x < y then .lt else if y < x then .gt else .eq

theorem lawful_lcmp {β : Type} [LinearOrder β] : LawfulCmp (fun x y : β => lcmp x y) := by
  constructor
  · intro a b
    rcases lt_trichotomy a b with h | h | h
    · simp [lcmp, h, lt_asymm h, Ordering.swap]
    · simp [lcmp, h, lt_irrefl, Ordering.swap]
    · simp [lcmp, h, lt_asymm h, Ordering.swap]
  · intro a b c h1 h2
    have hab : ¬ b < a := by
      intro hc
      apply h1
      simp [lcmp, lt_asymm hc, hc]
    have hbc : ¬ c < b := by
      intro hc
      apply h2
      simp [lcmp, lt_asymm hc, hc]
    intro hcon
    unfold lcmp at hcon
    split_ifs at hcon with u1 u2
    exact absurd (le_trans (not_lt.mp hab) (not_lt.mp hbc)) (not_le.mpr u2)
  · intro a b c h
    have hab : a = b := by
      unfold lcmp at h
      split_ifs at h with u1 u2
      exact le_antisymm (not_lt.mp u2) (not_lt.mp u1)
    rw [hab]

/-! ## The key domains of the comparators -/

/-- The values `toBuild`/`toDate` range over: a bottom element
(`-Infinity`) or a finite number. -/
inductive EK where
  | bot
  | val (q : JsRat)
deriving DecidableEq, Repr

/-- Extract the sort key of a normalizer result. -/
def ekOf : JsNum → EK
  | .fin q => .val q
  | _ => .bot

/-- Comparison on `EK`: bottom first, values by their rational value. -/
def ekCmp : EK → EK → Ordering
  | .bot, .bot => .eq
  | .bot, .val _ => .lt
  | .val _, .bot => .gt
  | .val a, .val b => if qLt a b then .lt else if qLt b a then .gt else .eq

/-- Interpretation of `EK` in the linear order `WithBot ℚ`. -/
def ekToWB : EK → WithBot ℚ
  | .bot => ⊥
  | .val q => (q.toRat : WithBot ℚ)

theorem ekCmp_eq_lcmp (x y : EK) : ekCmp x y = lcmp (ekToWB x) (ekToWB y) := by
  cases x with
  | bot =>
    cases y with
    | bot => simp [ekCmp, ekToWB, lcmp]
    | val b => simp [ekCmp, ekToWB, lcmp, WithBot.bot_lt_coe]
  | val a =>
    cases y with
    | bot => simp [ekCmp, ekToWB, lcmp, WithBot.bot_lt_coe, WithBot.not_lt_none]
    | val b =>
      have h1 : ((a.toRat : WithBot ℚ) < (b.toRat : WithBot ℚ)) ↔ a.toRat < b.toRat :=
        WithBot.coe_lt_coe
      have h2 : ((b.toRat : WithBot ℚ) < (a.toRat : WithBot ℚ)) ↔ b.toRat < a.toRat :=
        WithBot.coe_lt_coe
      simp only [ekCmp, ekToWB, lcmp, h1, h2]
      by_cases hab : qLt a b = true
      · rw [if_pos hab, if_pos ((qLt_iff a b).mp hab)]
      · rw [if_neg hab, if_neg (fun hh => hab ((qLt_iff a b).mpr hh))]
        by_cases hba : qLt b a = true
        · rw [if_pos hba, if_pos ((qLt_iff b a).mp hba)]
        · rw [if_neg hba, if_neg (fun hh => hba ((qLt_iff b a).mpr hh))]

theorem lawful_ekCmp : LawfulCmp ekCmp :=
  LawfulCmp.of_eqFun (fun x y => (ekCmp_eq_lcmp x y).symm) (lawful_lcmp.comp ekToWB)

/-! ## The lexicographic string order -/

theorem lexLt_cons (a b : Char) (as bs : List Char) :
    lexLt (a :: as) (b :: bs)
      = if a < b then true else if b < a then false else lexLt as bs := rfl

theorem lexLt_asymm : ∀ s t : List Char, lexLt s t = true → lexLt t s = false := by
  intro s
  induction s with
  | nil =>
    intro t h
    cases t with
    | nil => exact absurd h (by decide)
    | cons b bs => rfl
  | cons a as ih =>
    intro t h
    cases t with
    | nil => simp [lexLt] at h
    | cons b bs =>
      rw [lexLt_cons] at h ⊢
      by_cases h1 : a < b
      · rw [if_neg (lt_asymm h1), if_pos h1]
      · by_cases h2 : b < a
        · rw [if_neg h1, if_pos h2] at h
          exact absurd h (by decide)
        · rw [if_neg h1, if_neg h2] at h
          rw [if_neg h2, if_neg h1]
          exact ih bs h

theorem lexLt_conn : ∀ s t : List Char, lexLt s t = false → lexLt t s = false → s = t := by
  intro s
  induction s with
  | nil =>
    intro t h1 _
    cases t with
    | nil => rfl
    | cons b bs => simp [lexLt] at h1
  | cons a as ih =>
    intro t h1 h2
    cases t with
    | nil => simp [lexLt] at h2
    | cons b bs =>
      rw [lexLt_cons] at h1 h2
      by_cases hab : a < b
      · rw [if_pos hab] at h1
        exact absurd h1 (by decide)
      · by_cases hba : b < a
        · rw [if_pos hba] at h2
          exact absurd h2 (by decide)
        · rw [if_neg hab, if_neg hba] at h1
          rw [if_neg hba, if_neg hab] at h2
          rw [le_antisymm (not_lt.mp hba) (not_lt.mp hab), ih bs h1 h2]

theorem lexLt_trans : ∀ s t u : List Char,
    lexLt s t = true → lexLt t u = true → lexLt s u = true := by
  intro s
  induction s with
  | nil =>
    intro t u h1 h2
    cases u with
    | nil => simp [lexLt] at h2
    | cons c cs => rfl
  | cons a as ih =>
    intro t u h1 h2
    cases t with
    | nil => simp [lexLt] at h1
    | cons b bs =>
      cases u with
      | nil => simp [lexLt] at h2
      | cons c cs =>
        rw [lexLt_cons] at h1 h2 ⊢
        by_cases hab : a < b
        · by_cases hbc : b < c
          · rw [if_pos (lt_trans hab hbc)]
          · by_cases hcb : c < b
            · rw [if_neg hbc, if_pos hcb] at h2
              exact absurd h2 (by decide)
            · rw [if_pos (le_antisymm (not_lt.mp hcb) (not_lt.mp hbc) ▸ hab)]
        · by_cases hba : b < a
          · rw [if_neg hab, if_pos hba] at h1
            exact absurd h1 (by decide)
          · rw [if_neg hab, if_neg hba] at h1
            rw [le_antisymm (not_lt.mp hba) (not_lt.mp hab)]
            by_cases hbc : b < c
            · rw [if_pos hbc]
            · by_cases hcb : c < b
              · rw [if_neg hbc, if_pos hcb] at h2
                exact absurd h2 (by decide)
              · rw [if_neg hbc, if_neg hcb] at h2
                rw [if_neg hbc, if_neg hcb]
                exact ih bs cs h1 h2

theorem lexLt_irrefl (s : List Char) : lexLt s s = false := by
  cases h : lexLt s s
  · rfl
  · have h2 := lexLt_asymm s s h
    rw [h] at h2
    exact absurd h2 (by decide)

/-! ## The pre-release comparison of `cmpSemver` -/

/-- The pre-release tie-break of `cmpSemver` (lines 34–36): an empty tag
sorts after any non-empty tag, non-empty tags lexicographically. -/
def preCmp (s t : List Char) : Ordering :=
  if s ≠ [] ∧ t = [] then .lt
  else if s = [] ∧ t ≠ [] then .gt
  else if lexLt s t then .lt else if lexLt t s then .gt else .eq

theorem preCmp_nil_nil : preCmp [] [] = .eq := by
  rw [preCmp, if_neg (show ¬(([] : List Char) ≠ [] ∧ ([] : List Char) = []) by simp),
    if_neg (show ¬(([] : List Char) = [] ∧ ([] : List Char) ≠ []) by simp)]
  rfl

theorem preCmp_nil_right {s : List Char} (hs : s ≠ []) : preCmp s [] = .lt := by
  rw [preCmp, if_pos ⟨hs, rfl⟩]

theorem preCmp_nil_left {t : List Char} (ht : t ≠ []) : preCmp [] t = .gt := by
  rw [preCmp, if_neg (show ¬(([] : List Char) ≠ [] ∧ t = []) by simp),
    if_pos ⟨rfl, ht⟩]

theorem preCmp_nonempty {s t : List Char} (hs : s ≠ []) (ht : t ≠ []) :
    preCmp s t = if lexLt s t then .lt else if lexLt t s then .gt else .eq := by
  rw [preCmp, if_neg (show ¬(s ≠ [] ∧ t = []) by simp [ht]),
    if_neg (show ¬(s = [] ∧ t ≠ []) by simp [hs])]

theorem preCmp_eq {s t : List Char} (h : preCmp s t = .eq) : s = t := by
  by_cases hs : s = []
  · by_cases ht : t = []
    · rw [hs, ht]
    · subst hs
      rw [preCmp_nil_left ht] at h
      exact absurd h (by decide)
  · by_cases ht : t = []
    · subst ht
      rw [preCmp_nil_right hs] at h
      exact absurd h (by decide)
    · rw [preCmp_nonempty hs ht] at h
      cases hst : lexLt s t
      · cases hts : lexLt t s
        · exact lexLt_conn s t hst hts
        · rw [if_neg (show ¬lexLt s t = true by simp [hst]), if_pos hts] at h
          exact absurd h (by decide)
      · rw [if_pos hst] at h
        exact absurd h (by decide)

theorem lawful_preCmp : LawfulCmp preCmp := by
  constructor
  · intro s t
    by_cases hs : s = []
    · by_cases ht : t = []
      · subst hs; subst ht
        rw [preCmp_nil_nil]; rfl
      · subst hs
        rw [preCmp_nil_left ht, preCmp_nil_right ht]; rfl
    · by_cases ht : t = []
      · subst ht
        rw [preCmp_nil_right hs, preCmp_nil_left hs]; rfl
      · rw [preCmp_nonempty hs ht, preCmp_nonempty ht hs]
        cases hst : lexLt s t
        · cases hts : lexLt t s
          · rfl
          · rfl
        · rw [lexLt_asymm s t hst]
          rfl
  · intro s t u h1 h2
    by_cases hs : s = []
    · by_cases ht : t = []
      · subst hs; subst ht; exact h2
      · subst hs
        rw [preCmp_nil_left ht] at h1
        exact absurd rfl h1
    · by_cases hu : u = []
      · subst hu
        rw [preCmp_nil_right hs]
        decide
      · by_cases ht : t = []
        · subst ht
          rw [preCmp_nil_left hu] at h2
          exact absurd rfl h2
        · rw [preCmp_nonempty hs ht] at h1
          rw [preCmp_nonempty ht hu] at h2
          rw [preCmp_nonempty hs hu]
          intro hcon
          cases hsu : lexLt s u
          · rw [if_neg (show ¬lexLt s u = true by simp [hsu])] at hcon
            cases hus : lexLt u s
            · rw [if_neg (show ¬lexLt u s = true by simp [hus])] at hcon
              exact absurd hcon (by decide)
            · cases hst : lexLt s t
              · cases hts : lexLt t s
                · have hstq := lexLt_conn s t hst hts
                  rw [hstq] at hsu hus
                  apply h2
                  rw [if_neg (show ¬lexLt t u = true by simp [hsu]), if_pos hus]
                · apply h1
                  rw [if_neg (show ¬lexLt s t = true by simp [hst]), if_pos hts]
              · cases htu : lexLt t u
                · cases hut : lexLt u t
                  · rw [lexLt_conn t u htu hut] at hst
                    rw [hst] at hsu
                    exact absurd hsu (by decide)
                  · apply h2
                    rw [if_neg (show ¬lexLt t u = true by simp [htu]), if_pos hut]
                · have h3 := lexLt_trans s t u hst htu
                  rw [hsu] at h3
                  exact absurd h3 (by decide)
          · rw [if_pos hsu] at hcon
            exact absurd hcon (by decide)
  · intro s t u h
    rw [preCmp_eq h]

/-! ## The comparison on parsed versions, as an `Ordering` chain -/

/-- `svCmp` as a lexicographic `Ordering` chain. -/
def svOrd (A B : SV) : Ordering :=
  (lcmp A.n0 B.n0).then ((lcmp A.n1 B.n1).then ((lcmp A.n2 B.n2).then (preCmp A.pre B.pre)))

theorem lawful_svOrd : LawfulCmp svOrd := by
  have h3 : LawfulCmp (fun A B : SV => preCmp A.pre B.pre) := lawful_preCmp.comp SV.pre
  have h2 : LawfulCmp (fun A B : SV => (lcmp A.n2 B.n2).then (preCmp A.pre B.pre)) :=
    (lawful_lcmp.comp SV.n2).then_comp h3
  have h1 : LawfulCmp
      (fun A B : SV => (lcmp A.n1 B.n1).then ((lcmp A.n2 B.n2).then (preCmp A.pre B.pre))) :=
    (lawful_lcmp.comp SV.n1).then_comp h2
  exact (lawful_lcmp.comp SV.n0).then_comp h1

theorem LawfulCmp.flip {α : Type} {f : α → α → Ordering} (hf : LawfulCmp f) :
    LawfulCmp (fun a b => f b a) := by
  constructor
  · intro a b
    exact hf.symm b a
  · intro a b c h1 h2
    exact hf.le_trans c b a h2 h1
  · intro a b c h
    have h0 : f a b = .eq := by
      rw [hf.symm a b, h]
      rfl
    rw [hf.symm c a, hf.symm c b, hf.eq_congr a b c h0]

/-! ## Sign lemmas: each comparator as an `Ordering` chain -/

theorem lcmp_sub_zero (i j : Int) : lcmp (i - j) 0 = lcmp i j := by
  unfold lcmp
  split_ifs <;> first | rfl | (exfalso; omega)

theorem lcmp_eq_iff (i j : Int) : lcmp i j = .eq ↔ i = j := by
  unfold lcmp
  split_ifs with h1 h2
  · constructor
    · intro h; exact absurd h (by decide)
    · intro h; exfalso; omega
  · constructor
    · intro h; exact absurd h (by decide)
    · intro h; exfalso; omega
  · constructor
    · intro _; omega
    · intro _; rfl

theorem lcmp_neg_one_mul (i : Int) : lcmp (i * -1) 0 = (lcmp i 0).swap := by
  unfold lcmp
  split_ifs <;> first | rfl | (exfalso; omega)

theorem cmpZ_fin_qInt (i : Int) : cmpZ (.fin (qInt i)) = lcmp i 0 := by
  have h1 : qLt (qInt i) (qInt 0) = true ↔ i < 0 := by
    simp [qLt, qInt, JsRat.den]
  have h2 : qIsZero (qInt i) = true ↔ i = 0 := by
    simp [qIsZero, qInt]
  show (if qLt (qInt i) (qInt 0) = true then Ordering.lt
      else if qIsZero (qInt i) = true then Ordering.eq else Ordering.gt)
    = if i < 0 then Ordering.lt else if 0 < i then Ordering.gt else Ordering.eq
  rcases lt_trichotomy i 0 with h | h | h
  · rw [if_pos (h1.mpr h), if_pos h]
  · rw [if_neg (show ¬qLt (qInt i) (qInt 0) = true by rw [h1]; omega),
      if_pos (h2.mpr h), if_neg (show ¬i < 0 by omega), if_neg (show ¬0 < i by omega)]
  · rw [if_neg (show ¬qLt (qInt i) (qInt 0) = true by rw [h1]; omega),
      if_neg (show ¬qIsZero (qInt i) = true by rw [h2]; omega),
      if_neg (show ¬i < 0 by omega), if_pos h]

theorem svCmp_sign (A B : SV) : lcmp (svCmp A B) 0 = svOrd A B := by
  unfold svCmp svOrd
  by_cases e0 : A.n0 = B.n0
  · rw [if_neg (by simp [e0]), (lcmp_eq_iff A.n0 B.n0).mpr e0, ordEq_then]
    by_cases e1 : A.n1 = B.n1
    · rw [if_neg (by simp [e1]), (lcmp_eq_iff A.n1 B.n1).mpr e1, ordEq_then]
      by_cases e2 : A.n2 = B.n2
      · rw [if_neg (by simp [e2]), (lcmp_eq_iff A.n2 B.n2).mpr e2, ordEq_then]
        by_cases p1 : A.pre ≠ [] ∧ B.pre = []
        · rw [if_pos p1, preCmp, if_pos p1]
          decide
        · by_cases p2 : A.pre = [] ∧ B.pre ≠ []
          · rw [if_neg p1, if_pos p2, preCmp, if_neg p1, if_pos p2]
            decide
          · rw [if_neg p1, if_neg p2, preCmp, if_neg p1, if_neg p2]
            by_cases l1 : lexLt A.pre B.pre = true
            · rw [if_pos l1, if_pos l1]
              decide
            · rw [if_neg l1, if_neg l1]
              by_cases l2 : lexLt B.pre A.pre = true
              · rw [if_pos l2, if_pos l2]
                decide
              · rw [if_neg l2, if_neg l2]
                decide
      · rw [if_pos e2, ordThen_ne_eq _ _ (fun hh => e2 ((lcmp_eq_iff A.n2 B.n2).mp hh))]
        exact lcmp_sub_zero A.n2 B.n2
    · rw [if_pos e1, ordThen_ne_eq _ _ (fun hh => e1 ((lcmp_eq_iff A.n1 B.n1).mp hh))]
      exact lcmp_sub_zero A.n1 B.n1
  · rw [if_pos e0, ordThen_ne_eq _ _ (fun hh => e0 ((lcmp_eq_iff A.n0 B.n0).mp hh))]
    exact lcmp_sub_zero A.n0 B.n0

theorem cmpZ_fin_ne_eq {q : JsRat} (h : qIsZero q = false) : cmpZ (.fin q) ≠ .eq := by
  show ¬(if qLt q (qInt 0) = true then Ordering.lt
    else if qIsZero q = true then Ordering.eq else Ordering.gt) = Ordering.eq
  split_ifs with h1 h2
  · decide
  · rw [h] at h2
    exact absurd h2 (by decide)
  · decide

theorem cmpZ_jsOr (x y : JsNum) : cmpZ (jsOr x y) = (cmpZ x).then (cmpZ y) := by
  cases x with
  | nan => rfl
  | posInf => rfl
  | negInf => rfl
  | fin q =>
    show cmpZ (if jsFalsyNum (.fin q) then y else .fin q) = _
    cases hz : qIsZero q
    · rw [if_neg (by simp [jsFalsyNum, hz])]
      rw [ordThen_ne_eq _ _ (cmpZ_fin_ne_eq hz)]
    · rw [if_pos (by simp [jsFalsyNum, hz])]
      have h0 : q.num = 0 := by simpa [qIsZero] using hz
      have he : cmpZ (.fin q) = .eq := by
        show (if qLt q (qInt 0) = true then Ordering.lt
          else if qIsZero q = true then Ordering.eq else Ordering.gt) = Ordering.eq
        rw [if_neg (show ¬qLt q (qInt 0) = true by simp [qLt, qInt, JsRat.den, h0]),
          if_pos hz]
      rw [he, ordEq_then]

theorem toBuild_shape (v : JsVal) : toBuild v = .negInf ∨ ∃ q, toBuild v = .fin q := by
  unfold toBuild
  cases jsToNumber v
  · exact Or.inl rfl
  · exact Or.inl rfl
  · exact Or.inl rfl
  · exact Or.inr ⟨_, rfl⟩

theorem toDate_shape (v : JsVal) : toDate v = .negInf ∨ ∃ q, toDate v = .fin q := by
  unfold toDate
  cases jsDateTime v
  · exact Or.inl rfl
  · exact Or.inl rfl
  · exact Or.inl rfl
  · exact Or.inr ⟨_, rfl⟩

theorem cmpZ_esub {x y : JsNum}
    (hx : x = .negInf ∨ ∃ q, x = .fin q) (hy : y = .negInf ∨ ∃ q, y = .fin q) :
    cmpZ (esub x y) = ekCmp (ekOf x) (ekOf y) := by
  rcases hx with rfl | ⟨a, rfl⟩ <;> rcases hy with rfl | ⟨b, rfl⟩
  · rfl
  · rfl
  · rfl
  · show (if qLt (qSub a b) (qInt 0) = true then Ordering.lt
        else if qIsZero (qSub a b) = true then Ordering.eq else Ordering.gt)
      = if qLt a b = true then Ordering.lt
        else if qLt b a = true then Ordering.gt else Ordering.eq
    have hd : (qSub a b).toRat = a.toRat - b.toRat := qSub_toRat a b
    by_cases hab : qLt a b = true
    · rw [if_pos (show qLt (qSub a b) (qInt 0) = true by
        rw [qLt_iff, hd, qInt_toRat]
        exact_mod_cast sub_neg.mpr ((qLt_iff a b).mp hab)), if_pos hab]
    · have n1 : qLt (qSub a b) (qInt 0) = false := by
        cases hv : qLt (qSub a b) (qInt 0)
        · rfl
        · exfalso
          apply hab
          rw [qLt_iff]
          have h3 := (qLt_iff _ _).mp hv
          rw [hd, qInt_toRat] at h3
          have h4 : a.toRat - b.toRat < 0 := by simpa using h3
          exact sub_neg.mp h4
      rw [if_neg (by simp [n1]), if_neg hab]
      by_cases hba : qLt b a = true
      · rw [if_pos hba]
        have nz : qIsZero (qSub a b) = false := by
          cases hv : qIsZero (qSub a b)
          · rfl
          · exfalso
            have h0 := (qIsZero_iff _).mp hv
            rw [hd] at h0
            have hlt := (qLt_iff b a).mp hba
            have h5 := sub_eq_zero.mp h0
            linarith
        rw [if_neg (by simp [nz])]
      · rw [if_neg hba]
        have z : qIsZero (qSub a b) = true := by
          rw [qIsZero_iff, hd, sub_eq_zero]
          have h1 : ¬ a.toRat < b.toRat := fun hh => hab ((qLt_iff a b).mpr hh)
          have h2 : ¬ b.toRat < a.toRat := fun hh => hba ((qLt_iff b a).mpr hh)
          linarith
        rw [if_pos z]

/-! ## The six comparators are lawful -/

/-- Build sort key of a record. -/
def bK (r : Release) : EK := ekOf (toBuild r.build)

/-- Date sort key of a record. -/
def dK (r : Release) : EK := ekOf (toDate r.date)

/-- Parsed version of a record. -/
def svK (r : Release) : SV := svParse r.version

theorem repr_buildDesc (a b : Release) :
    cmpZ (buildDesc a b)
      = ((ekCmp (bK b) (bK a)).then (ekCmp (dK b) (dK a))).then (svOrd (svK b) (svK a)) := by
  unfold buildDesc bK dK svK
  rw [cmpZ_jsOr, cmpZ_jsOr, cmpZ_esub (toBuild_shape _) (toBuild_shape _),
    cmpZ_esub (toDate_shape _) (toDate_shape _), cmpZ_fin_qInt]
  unfold cmpSemver
  rw [svCmp_sign]

theorem repr_buildAsc (a b : Release) :
    cmpZ (buildAsc a b)
      = ((ekCmp (bK a) (bK b)).then (ekCmp (dK a) (dK b))).then (svOrd (svK a) (svK b)) := by
  unfold buildAsc bK dK svK
  rw [cmpZ_jsOr, cmpZ_jsOr, cmpZ_esub (toBuild_shape _) (toBuild_shape _),
    cmpZ_esub (toDate_shape _) (toDate_shape _), cmpZ_fin_qInt]
  unfold cmpSemver
  rw [svCmp_sign]

theorem repr_semverDesc (a b : Release) :
    cmpZ (semverDesc a b)
      = ((svOrd (svK a) (svK b)).swap).then (ekCmp (dK b) (dK a)) := by
  unfold semverDesc dK svK
  rw [cmpZ_jsOr, cmpZ_esub (toDate_shape _) (toDate_shape _), cmpZ_fin_qInt,
    lcmp_neg_one_mul]
  unfold cmpSemver
  rw [svCmp_sign]

theorem repr_semverAsc (a b : Release) :
    cmpZ (semverAsc a b)
      = (svOrd (svK a) (svK b)).then (ekCmp (dK a) (dK b)) := by
  unfold semverAsc dK svK
  rw [cmpZ_jsOr, cmpZ_esub (toDate_shape _) (toDate_shape _), cmpZ_fin_qInt]
  unfold cmpSemver
  rw [svCmp_sign]

theorem repr_dateDesc (a b : Release) :
    cmpZ (dateDesc a b)
      = (ekCmp (dK b) (dK a)).then (ekCmp (bK b) (bK a)) := by
  unfold dateDesc bK dK
  rw [cmpZ_jsOr, cmpZ_esub (toDate_shape _) (toDate_shape _),
    cmpZ_esub (toBuild_shape _) (toBuild_shape _)]

theorem repr_dateAsc (a b : Release) :
    cmpZ (dateAsc a b)
      = (ekCmp (dK a) (dK b)).then (ekCmp (bK a) (bK b)) := by
  unfold dateAsc bK dK
  rw [cmpZ_jsOr, cmpZ_esub (toDate_shape _) (toDate_shape _),
    cmpZ_esub (toBuild_shape _) (toBuild_shape _)]

theorem lawful_buildDesc : LawfulCmp (fun a b => cmpZ (buildDesc a b)) :=
  LawfulCmp.of_eqFun (fun a b => (repr_buildDesc a b).symm)
    ((((lawful_ekCmp.comp bK).flip).then_comp ((lawful_ekCmp.comp dK).flip)).then_comp
      ((lawful_svOrd.comp svK).flip))

theorem lawful_buildAsc : LawfulCmp (fun a b => cmpZ (buildAsc a b)) :=
  LawfulCmp.of_eqFun (fun a b => (repr_buildAsc a b).symm)
    (((lawful_ekCmp.comp bK).then_comp (lawful_ekCmp.comp dK)).then_comp
      (lawful_svOrd.comp svK))

theorem lawful_svSwap : LawfulCmp (fun a b : Release => (svOrd (svK a) (svK b)).swap) :=
  LawfulCmp.of_eqFun (fun a b => lawful_svOrd.symm (svK b) (svK a))
    ((lawful_svOrd.comp svK).flip)

theorem lawful_semverDesc : LawfulCmp (fun a b => cmpZ (semverDesc a b)) :=
  LawfulCmp.of_eqFun (fun a b => (repr_semverDesc a b).symm)
    (lawful_svSwap.then_comp ((lawful_ekCmp.comp dK).flip))

theorem lawful_semverAsc : LawfulCmp (fun a b => cmpZ (semverAsc a b)) :=
  LawfulCmp.of_eqFun (fun a b => (repr_semverAsc a b).symm)
    ((lawful_svOrd.comp svK).then_comp (lawful_ekCmp.comp dK))

theorem lawful_dateDesc : LawfulCmp (fun a b => cmpZ (dateDesc a b)) :=
  LawfulCmp.of_eqFun (fun a b => (repr_dateDesc a b).symm)
    (((lawful_ekCmp.comp dK).flip).then_comp ((lawful_ekCmp.comp bK).flip))

theorem lawful_dateAsc : LawfulCmp (fun a b => cmpZ (dateAsc a b)) :=
  LawfulCmp.of_eqFun (fun a b => (repr_dateAsc a b).symm)
    ((lawful_ekCmp.comp dK).then_comp (lawful_ekCmp.comp bK))

theorem lawful_sorters {k : String} {c : Cmp} (h : sorters k = some c) :
    LawfulCmp (fun a b => cmpZ (c a b)) := by
  unfold sorters at h
  split_ifs at h
  all_goals first
    | exact Option.noConfusion h
    | (injection h with h2; subst h2; first
        | exact lawful_buildDesc
        | exact lawful_buildAsc
        | exact lawful_semverDesc
        | exact lawful_semverAsc
        | exact lawful_dateDesc
        | exact lawful_dateAsc)

/-! ## Sorting with a registered comparator -/

theorem cmpLe_iff (c : Cmp) (a b : Release) : cmpLe c a b = true ↔ cmpZ (c a b) ≠ .gt := by
  unfold cmpLe
  cases c a b with
  | nan => simp [cmpZ]
  | posInf => simp [cmpZ]
  | negInf => simp [cmpZ]
  | fin q =>
    have hlt : qLt q (qInt 0) = true ↔ q.toRat < 0 := by
      rw [qLt_iff, qInt_toRat]
      norm_num
    have hle : qLe q (qInt 0) = true ↔ q.toRat ≤ 0 := by
      rw [qLe_iff, qInt_toRat]
      norm_num
    show qLe q (qInt 0) = true ↔
      ¬(if qLt q (qInt 0) = true then Ordering.lt
        else if qIsZero q = true then Ordering.eq else Ordering.gt) = Ordering.gt
    rcases lt_trichotomy q.toRat 0 with h | h | h
    · rw [if_pos (hlt.mpr h)]
      simp [hle, h.le]
    · rw [if_neg (show ¬qLt q (qInt 0) = true by rw [hlt, h]; exact lt_irrefl 0),
        if_pos ((qIsZero_iff q).mpr h)]
      simp [hle, h.le]
    · rw [if_neg (show ¬qLt q (qInt 0) = true by rw [hlt]; exact not_lt.mpr h.le),
        if_neg (show ¬qIsZero q = true by rw [qIsZero_iff]; exact ne_of_gt h)]
      constructor
      · intro hh
        exact absurd (hle.mp hh) (not_le.mpr h)
      · intro hh
        exact absurd rfl hh

theorem sorters_isTotal {k : String} {c : Cmp} (h : sorters k = some c) :
    IsTotal Release (rle c) := by
  constructor
  intro a b
  have L := lawful_sorters h
  by_cases hab : cmpZ (c a b) = .gt
  · right
    show cmpLe c b a = true
    rw [cmpLe_iff]
    rw [L.symm b a, hab]
    decide
  · left
    show cmpLe c a b = true
    rw [cmpLe_iff]
    exact hab

theorem sorters_isTrans {k : String} {c : Cmp} (h : sorters k = some c) :
    IsTrans Release (rle c) := by
  constructor
  intro x y z h1 h2
  have L := lawful_sorters h
  show cmpLe c x z = true
  rw [cmpLe_iff]
  rw [show rle c x y = (cmpLe c x y = true) from rfl, cmpLe_iff] at h1
  rw [show rle c y z = (cmpLe c y z = true) from rfl, cmpLe_iff] at h2
  exact L.le_trans x y z h1 h2

theorem jsSortBy_sorted {k : String} {c : Cmp} (h : sorters k = some c) (l : List Release) :
    List.Sorted (rle c) (jsSortBy c l) := by
  haveI := sorters_isTotal h
  haveI := sorters_isTrans h
  exact List.sorted_insertionSort (rle c) l

theorem jsSortBy_perm (c : Cmp) (l : List Release) : List.Perm (jsSortBy c l) l :=
  List.perm_insertionSort (rle c) l

theorem jsSortBy_idem {k : String} {c : Cmp} (h : sorters k = some c) (l : List Release) :
    jsSortBy c (jsSortBy c l) = jsSortBy c l :=
  List.Sorted.insertionSort_eq (jsSortBy_sorted h l)

/-- Two sorted lists that are permutations of each other are equal,
given antisymmetry on their members. -/
theorem eq_of_perm_sorted_anti {α : Type} {r : α → α → Prop} :
    ∀ (l₁ : List α), ∀ {l₂ : List α},
      (∀ a, a ∈ l₁ → ∀ b, b ∈ l₁ → r a b → r b a → a = b) →
      List.Perm l₁ l₂ → l₁.Sorted r → l₂.Sorted r → l₁ = l₂ := by
  intro l₁
  induction l₁ with
  | nil =>
    intro l₂ _ hp _ _
    exact hp.nil_eq
  | cons a t₁ ih =>
    intro l₂ anti hp hs₁ hs₂
    cases l₂ with
    | nil => exact absurd hp.symm.nil_eq (by simp)
    | cons b t₂ =>
      have hab : a = b := by
        have hbmem : b ∈ a :: t₁ := hp.mem_iff.mpr (List.mem_cons_self b t₂)
        rcases List.mem_cons.mp hbmem with hcase | hcase
        · exact hcase.symm
        · have hrab : r a b := (List.sorted_cons.mp hs₁).1 b hcase
          have hamem : a ∈ b :: t₂ := hp.symm.mem_iff.mpr (List.mem_cons_self a t₁)
          rcases List.mem_cons.mp hamem with hcase2 | hcase2
          · exact hcase2
          · have hrba : r b a := (List.sorted_cons.mp hs₂).1 a hcase2
            exact anti a (List.mem_cons_self a t₁) b (List.mem_cons_of_mem a hcase) hrab hrba
      subst hab
      have hp2 : List.Perm t₁ t₂ := hp.cons_inv
      rw [ih (fun x hx y hy => anti x (List.mem_cons_of_mem a hx) y (List.mem_cons_of_mem a hy))
        hp2 (List.sorted_cons.mp hs₁).2 (List.sorted_cons.mp hs₂).2]

/-! ## Session invariant: the filtered view is a fixed point of re-sorting -/

/-- In every reachable state the filtered view is a fixed point of
sorting with the current key.  The key need NOT name a registered
comparator: a session can install an `Object.prototype`-inherited name
(through `setSort` or `?sort=`), under which `sortView` is the
identity and the fixed point is trivial. -/
def SortInv (s : AppState) : Prop :=
  s.filtered = sortView s.sort s.filtered

theorem sortView_of_valid {k : String} {c : Cmp} (h : sorters k = some c) (l : List Release) :
    sortView k l = jsSortBy c l := by
  unfold sortView
  rw [h]

theorem sortView_idem (k : String) (l : List Release) :
    sortView k (sortView k l) = sortView k l := by
  unfold sortView
  cases h : sorters k with
  | none => rfl
  | some c => exact jsSortBy_idem h l

theorem reachable_inv {s : AppState} (h : Reachable s) : SortInv s := by
  induction h with
  | init => rfl
  | load arr u =>
    show sortView (loadSortKey u) arr
      = sortView (loadSortKey u) (sortView (loadSortKey u) arr)
    exact (sortView_idem _ _).symm
  | filt q s _ _ =>
    show sortView s.sort _ = sortView s.sort (sortView s.sort _)
    exact (sortView_idem _ _).symm
  | sel v s _ _ =>
    show sortView (if inSorters v then v else s.sort) s.filtered
      = sortView (if inSorters v then v else s.sort)
          (sortView (if inSorters v then v else s.sort) s.filtered)
    exact (sortView_idem _ _).symm

/-! ## Swapping the arguments of a comparator negates its result -/

/-- JS unary negation on numbers (`NaN` stays `NaN`). -/
def jsNegate : JsNum → JsNum
  | .nan => .nan
  | .posInf => .negInf
  | .negInf => .posInf
  | .fin q => .fin (qNeg q)

theorem esub_neg (x y : JsNum) : esub y x = jsNegate (esub x y) := by
  cases x with
  | nan => cases y <;> rfl
  | posInf => cases y <;> rfl
  | negInf => cases y <;> rfl
  | fin a =>
    cases y with
    | nan => rfl
    | posInf => rfl
    | negInf => rfl
    | fin b =>
      show JsNum.fin (qSub b a) = JsNum.fin (qNeg (qSub a b))
      unfold qSub qNeg qMk
      simp only [JsNum.fin.injEq, JsRat.mk.injEq]
      constructor
      · ring
      · rw [Nat.mul_comm]

theorem jsFalsy_neg (x : JsNum) : jsFalsyNum (jsNegate x) = jsFalsyNum x := by
  cases x with
  | nan => rfl
  | posInf => rfl
  | negInf => rfl
  | fin q =>
    show qIsZero (qNeg q) = qIsZero q
    unfold qIsZero qNeg
    simp

theorem jsOr_neg (x y : JsNum) : jsOr (jsNegate x) (jsNegate y) = jsNegate (jsOr x y) := by
  unfold jsOr
  rw [jsFalsy_neg]
  by_cases h : jsFalsyNum x = true
  · rw [if_pos h, if_pos h]
  · rw [if_neg h, if_neg h]

theorem svCmp_pre_level {A B : SV} (e0 : A.n0 = B.n0) (e1 : A.n1 = B.n1) (e2 : A.n2 = B.n2) :
    svCmp A B
      = if A.pre ≠ [] ∧ B.pre = [] then -1
        else if A.pre = [] ∧ B.pre ≠ [] then 1
        else if lexLt A.pre B.pre then -1 else if lexLt B.pre A.pre then 1 else 0 := by
  unfold svCmp
  rw [if_neg (show ¬(A.n0 ≠ B.n0) by simp [e0]), if_neg (show ¬(A.n1 ≠ B.n1) by simp [e1]),
    if_neg (show ¬(A.n2 ≠ B.n2) by simp [e2])]

theorem svCmp_neg (A B : SV) : svCmp B A = -(svCmp A B) := by
  by_cases e0 : A.n0 = B.n0
  · by_cases e1 : A.n1 = B.n1
    · by_cases e2 : A.n2 = B.n2
      · rw [svCmp_pre_level e0.symm e1.symm e2.symm, svCmp_pre_level e0 e1 e2]
        by_cases p1 : A.pre ≠ [] ∧ B.pre = []
        · rw [if_neg (show ¬(B.pre ≠ [] ∧ A.pre = []) from fun hh => hh.1 p1.2),
            if_pos (show B.pre = [] ∧ A.pre ≠ [] from ⟨p1.2, p1.1⟩),
            if_pos p1]
          decide
        · by_cases p2 : A.pre = [] ∧ B.pre ≠ []
          · rw [if_pos (show B.pre ≠ [] ∧ A.pre = [] from ⟨p2.2, p2.1⟩),
              if_neg p1, if_pos p2]
          · rw [if_neg (show ¬(B.pre ≠ [] ∧ A.pre = []) from fun hh => p2 ⟨hh.2, hh.1⟩),
              if_neg (show ¬(B.pre = [] ∧ A.pre ≠ []) from fun hh => p1 ⟨hh.2, hh.1⟩),
              if_neg p1, if_neg p2]
            by_cases l1 : lexLt A.pre B.pre = true
            · rw [if_neg (show ¬lexLt B.pre A.pre = true by simp [lexLt_asymm _ _ l1]),
                if_pos l1, if_pos l1]
              decide
            · by_cases l2 : lexLt B.pre A.pre = true
              · rw [if_pos l2, if_neg l1, if_pos l2]
              · rw [if_neg l2, if_neg l1, if_neg l1, if_neg l2]
                decide
      · have L : svCmp B A = B.n2 - A.n2 := by
          unfold svCmp
          rw [if_neg (show ¬(B.n0 ≠ A.n0) by simp [e0]),
            if_neg (show ¬(B.n1 ≠ A.n1) by simp [e1]),
            if_pos (show B.n2 ≠ A.n2 from fun hh => e2 hh.symm)]
        have R : svCmp A B = A.n2 - B.n2 := by
          unfold svCmp
          rw [if_neg (show ¬(A.n0 ≠ B.n0) by simp [e0]),
            if_neg (show ¬(A.n1 ≠ B.n1) by simp [e1]),
            if_pos (show A.n2 ≠ B.n2 from e2)]
        rw [L, R]
        ring
    · have L : svCmp B A = B.n1 - A.n1 := by
        unfold svCmp
        rw [if_neg (show ¬(B.n0 ≠ A.n0) by simp [e0]),
          if_pos (show B.n1 ≠ A.n1 from fun hh => e1 hh.symm)]
      have R : svCmp A B = A.n1 - B.n1 := by
        unfold svCmp
        rw [if_neg (show ¬(A.n0 ≠ B.n0) by simp [e0]),
          if_pos (show A.n1 ≠ B.n1 from e1)]
      rw [L, R]
      ring
  · have L : svCmp B A = B.n0 - A.n0 := by
      unfold svCmp
      rw [if_pos (show B.n0 ≠ A.n0 from fun hh => e0 hh.symm)]
    have R : svCmp A B = A.n0 - B.n0 := by
      unfold svCmp
      rw [if_pos (show A.n0 ≠ B.n0 from e0)]
    rw [L, R]
    ring

theorem cmpSemver_neg (a b : JsVal) : cmpSemver b a = -(cmpSemver a b) :=
  svCmp_neg (svParse a) (svParse b)

theorem fin_qInt_neg (i : Int) : JsNum.fin (qInt (-i)) = jsNegate (.fin (qInt i)) := rfl

theorem buildDesc_neg (a b : Release) : buildDesc b a = jsNegate (buildDesc a b) := by
  show jsOr (jsOr (esub (toBuild a.build) (toBuild b.build))
        (esub (toDate a.date) (toDate b.date)))
      (.fin (qInt (cmpSemver a.version b.version)))
    = jsNegate (jsOr (jsOr (esub (toBuild b.build) (toBuild a.build))
        (esub (toDate b.date) (toDate a.date)))
      (.fin (qInt (cmpSemver b.version a.version))))
  rw [esub_neg (toBuild b.build) (toBuild a.build), esub_neg (toDate b.date) (toDate a.date),
    cmpSemver_neg b.version a.version, fin_qInt_neg, jsOr_neg, jsOr_neg]

theorem buildAsc_neg (a b : Release) : buildAsc b a = jsNegate (buildAsc a b) := by
  show jsOr (jsOr (esub (toBuild b.build) (toBuild a.build))
        (esub (toDate b.date) (toDate a.date)))
      (.fin (qInt (cmpSemver b.version a.version)))
    = jsNegate (jsOr (jsOr (esub (toBuild a.build) (toBuild b.build))
        (esub (toDate a.date) (toDate b.date)))
      (.fin (qInt (cmpSemver a.version b.version))))
  rw [esub_neg (toBuild a.build) (toBuild b.build), esub_neg (toDate a.date) (toDate b.date),
    cmpSemver_neg a.version b.version, fin_qInt_neg, jsOr_neg, jsOr_neg]

theorem semverDesc_neg (a b : Release) : semverDesc b a = jsNegate (semverDesc a b) := by
  show jsOr (.fin (qInt (cmpSemver b.version a.version * (-1))))
      (esub (toDate a.date) (toDate b.date))
    = jsNegate (jsOr (.fin (qInt (cmpSemver a.version b.version * (-1))))
      (esub (toDate b.date) (toDate a.date)))
  rw [show cmpSemver b.version a.version * (-1)
      = -(cmpSemver a.version b.version * (-1)) from by
        rw [cmpSemver_neg b.version a.version]; ring,
    fin_qInt_neg, esub_neg (toDate b.date) (toDate a.date), jsOr_neg]

theorem semverAsc_neg (a b : Release) : semverAsc b a = jsNegate (semverAsc a b) := by
  show jsOr (.fin (qInt (cmpSemver b.version a.version)))
      (esub (toDate b.date) (toDate a.date))
    = jsNegate (jsOr (.fin (qInt (cmpSemver a.version b.version)))
      (esub (toDate a.date) (toDate b.date)))
  rw [cmpSemver_neg a.version b.version, fin_qInt_neg,
    esub_neg (toDate a.date) (toDate b.date), jsOr_neg]

theorem dateDesc_neg (a b : Release) : dateDesc b a = jsNegate (dateDesc a b) := by
  show jsOr (esub (toDate a.date) (toDate b.date)) (esub (toBuild a.build) (toBuild b.build))
    = jsNegate (jsOr (esub (toDate b.date) (toDate a.date))
      (esub (toBuild b.build) (toBuild a.build)))
  rw [esub_neg (toDate b.date) (toDate a.date), esub_neg (toBuild b.build) (toBuild a.build),
    jsOr_neg]

theorem dateAsc_neg (a b : Release) : dateAsc b a = jsNegate (dateAsc a b) := by
  show jsOr (esub (toDate b.date) (toDate a.date)) (esub (toBuild b.build) (toBuild a.build))
    = jsNegate (jsOr (esub (toDate a.date) (toDate b.date))
      (esub (toBuild a.build) (toBuild b.build)))
  rw [esub_neg (toDate a.date) (toDate b.date), esub_neg (toBuild a.build) (toBuild b.build),
    jsOr_neg]

theorem sorters_neg {k : String} {c : Cmp} (h : sorters k = some c) (a b : Release) :
    c b a = jsNegate (c a b) := by
  unfold sorters at h
  split_ifs at h
  all_goals first
    | exact Option.noConfusion h
    | (injection h with h2; subst h2; first
        | exact buildDesc_neg a b
        | exact buildAsc_neg a b
        | exact semverDesc_neg a b
        | exact semverAsc_neg a b
        | exact dateDesc_neg a b
        | exact dateAsc_neg a b)

/-! ## How `split('-')` actually splits (for claim C4) -/

theorem splitChar_ne_nil (sep : Char) (cs : List Char) : splitChar sep cs ≠ [] := by
  cases cs with
  | nil => simp [splitChar]
  | cons c r =>
    show (if c = sep then [] :: splitChar sep r
      else match splitChar sep r with
        | h :: t => (c :: h) :: t
        | [] => [[c]]) ≠ []
    by_cases hc : c = sep
    · rw [if_pos hc]
      simp
    · rw [if_neg hc]
      cases splitChar sep r
      · simp
      · simp

theorem takeWhile_of_not_mem {sep : Char} :
    ∀ {cs : List Char}, sep ∉ cs → cs.takeWhile (fun c => decide (c ≠ sep)) = cs := by
  intro cs
  induction cs with
  | nil => intro _; rfl
  | cons c r ih =>
    intro h
    have hc : c ≠ sep := fun hh => h (hh ▸ List.mem_cons_self c r)
    rw [List.takeWhile_cons, if_pos (by simp [hc]), ih (fun hh => h (List.mem_cons_of_mem c hh))]

theorem splitChar_not_mem {sep : Char} :
    ∀ {cs : List Char}, sep ∉ cs → splitChar sep cs = [cs] := by
  intro cs
  induction cs with
  | nil => intro _; rfl
  | cons c r ih =>
    intro h
    have hc : ¬ c = sep := fun hh => h (hh ▸ List.mem_cons_self c r)
    show (if c = sep then [] :: splitChar sep r
      else match splitChar sep r with
        | h2 :: t => (c :: h2) :: t
        | [] => [[c]]) = [c :: r]
    rw [if_neg hc, ih (fun hh => h (List.mem_cons_of_mem c hh))]

theorem splitChar_mem {sep : Char} :
    ∀ {cs : List Char}, sep ∈ cs →
      splitChar sep cs
        = cs.takeWhile (fun c => decide (c ≠ sep))
          :: splitChar sep ((cs.dropWhile (fun c => decide (c ≠ sep))).drop 1) := by
  intro cs
  induction cs with
  | nil =>
    intro h
    exact absurd h (List.not_mem_nil sep)
  | cons c r ih =>
    intro h
    show (if c = sep then [] :: splitChar sep r
      else match splitChar sep r with
        | h2 :: t => (c :: h2) :: t
        | [] => [[c]])
      = ((c :: r).takeWhile (fun x => decide (x ≠ sep)))
        :: splitChar sep (((c :: r).dropWhile (fun x => decide (x ≠ sep))).drop 1)
    by_cases hc : c = sep
    · subst hc
      rw [if_pos rfl, List.takeWhile_cons, if_neg (by simp), List.dropWhile_cons,
        if_neg (by simp)]
      simp
    · have hmem : sep ∈ r := by
        rcases List.mem_cons.mp h with hh | hh
        · exact absurd hh.symm hc
        · exact hh
      rw [if_neg hc, ih hmem, List.takeWhile_cons, if_pos (by simp [hc]),
        List.dropWhile_cons, if_pos (by simp [hc])]

theorem svParse_pre (v : JsVal) :
    (svParse v).pre = ((splitChar '-' (stripLeadV (jsOrEmpty v).toList))[1]?).getD [] := rfl

/-! ## The search haystack as the claim words it (for claim C6) -/

/-- A text field's contribution to the haystack: itself, when present
and non-empty. -/
def textPart : JsVal → List String
  | .str s => if s = "" then [] else [s]
  | _ => []

/-- The build contribution as claim C6 words it: the stringified build,
skipped only when absent/empty — a numeric `0` build is kept. -/
def claimBuildPart : JsVal → List String
  | .str s => if s = "" then [] else [s]
  | .num q => [ratToJsString q]
  | _ => []

/-- The build contribution as the code behaves: `filter(Boolean)` also
drops a numeric build equal to `0` (falsy). -/
def amendBuildPart : JsVal → List String
  | .str s => if s = "" then [] else [s]
  | .num q => if qIsZero q then [] else [ratToJsString q]
  | _ => []

/-- The haystack of claim C6, read off its words: version, date,
channel, stringified build, the changes and the tags, space-joined and
lowercased, skipping absent/empty fields. -/
def claimHay (r : Release) : List Char :=
  (String.intercalate " "
    (textPart r.version ++ textPart r.date ++ textPart r.channel ++ claimBuildPart r.build
      ++ r.changes.filter (fun s => decide (s ≠ ""))
      ++ r.tags.filter (fun s => decide (s ≠ "")))).toList.map Char.toLower

/-- The haystack with the one correction the code forces: a numeric `0`
build is skipped too. -/
def amendHay (r : Release) : List Char :=
  (String.intercalate " "
    (textPart r.version ++ textPart r.date ++ textPart r.channel ++ amendBuildPart r.build
      ++ r.changes.filter (fun s => decide (s ≠ ""))
      ++ r.tags.filter (fun s => decide (s ≠ "")))).toList.map Char.toLower

/-- The data model's shape for the text fields (`§3`): `version`,
`date`, `channel` are text or absent, never numbers. -/
def textish : JsVal → Bool
  | .num _ => false
  | _ => true

/-- A record shaped as the data model describes. -/
def recWF (r : Release) : Bool :=
  textish r.version && textish r.date && textish r.channel

theorem field_part {v : JsVal} (hv : textish v = true) :
    (List.filter jsTruthy [v]).map jsToString = textPart v := by
  cases v with
  | undef => rfl
  | null => rfl
  | num q => exact absurd hv (by simp [textish])
  | str s =>
    by_cases hs : s = ""
    · subst hs
      rfl
    · simp [List.filter, jsTruthy, hs, textPart, jsToString]

theorem build_part (v : JsVal) :
    (List.filter jsTruthy [v]).map jsToString = amendBuildPart v := by
  cases v with
  | undef => rfl
  | null => rfl
  | str s =>
    by_cases hs : s = ""
    · subst hs
      rfl
    · simp [List.filter, jsTruthy, hs, amendBuildPart, jsToString]
  | num q =>
    by_cases hz : qIsZero q = true
    · simp [List.filter, jsTruthy, hz, amendBuildPart]
    · simp [List.filter, jsTruthy, hz, amendBuildPart, jsToString]

theorem filter_str_list (l : List String) :
    ((l.map JsVal.str).filter jsTruthy).map jsToString
      = l.filter (fun s => decide (s ≠ "")) := by
  induction l with
  | nil => rfl
  | cons s t ih =>
    by_cases hs : s = ""
    · subst hs
      simp only [List.map_cons]
      rw [List.filter_cons, List.filter_cons]
      simp [jsTruthy, ih]
    · simp only [List.map_cons]
      rw [List.filter_cons, List.filter_cons]
      simp [jsTruthy, hs, ih, jsToString]

theorem hayOf_eq {r : Release} (h : recWF r = true) : hayOf r = amendHay r := by
  rw [recWF, Bool.and_eq_true, Bool.and_eq_true] at h
  obtain ⟨⟨hv, hd⟩, hc⟩ := h
  have key : (([r.version, r.date, r.channel, r.build]
        ++ r.changes.map JsVal.str ++ r.tags.map JsVal.str).filter jsTruthy).map jsToString
      = textPart r.version ++ textPart r.date ++ textPart r.channel ++ amendBuildPart r.build
        ++ r.changes.filter (fun s => decide (s ≠ ""))
        ++ r.tags.filter (fun s => decide (s ≠ "")) := by
    rw [show [r.version, r.date, r.channel, r.build]
        = [r.version] ++ [r.date] ++ [r.channel] ++ [r.build] from rfl]
    simp only [List.filter_append, List.map_append]
    rw [field_part hv, field_part hd, field_part hc, build_part, filter_str_list,
      filter_str_list]
  show (String.intercalate " " ((([r.version, r.date, r.channel, r.build]
      ++ r.changes.map JsVal.str
      ++ r.tags.map JsVal.str).filter jsTruthy).map jsToString)).toList.map Char.toLower
    = amendHay r
  rw [key]
  rfl

/-- The sign of plain lexicographic text comparison (the tie-break the
spec describes for two pre-release tags). -/
def lexSign (s t : List Char) : Int :=
  if lexLt s t then -1 else if lexLt t s then 1 else 0

/-! ## Claim theorems -/

/-- C1: the claim says that when no valid explicit sort key is supplied,
the sort key applied at load equals `pickDefaultSort`'s choice for the
dataset.  The code instead hardcodes `'build-asc'` (line 137, `state.sort
= (fromUrl && sorters[fromUrl]) ? fromUrl : 'build-asc'`) and never
calls `pickDefaultSort` — dead code, contradicting the adjacent comment
"Pick default sort".  On a dataset with one numeric build the heuristic
picks `'build-desc'`, but the loaded state's key is `'build-asc'`. -/
theorem C1_load_ignores_default_heuristic :
    (loadState [⟨.str "1.0.0", .num (qInt 3), .undef, .undef, [], []⟩] none).sort = "build-asc"
    ∧ pickDefaultSort [⟨.str "1.0.0", .num (qInt 3), .undef, .undef, [], []⟩] = "build-desc"
    ∧ (loadState [⟨.str "1.0.0", .num (qInt 3), .undef, .undef, [], []⟩] none).sort
      ≠ pickDefaultSort [⟨.str "1.0.0", .num (qInt 3), .undef, .undef, [], []⟩] := by
  refine ⟨by decide, by decide, by decide⟩

/-- C2 counterexample: with two records sharing version `1.0.0` and no
dates but different builds, first sorting by `build-asc` and then
switching the key to `semver-desc` re-sorts the already-ordered view —
a stable sort keeps the `build-asc` order of the two `semver-desc`-equal
records — while the full pipeline keeps their original dataset order, so
the claimed identity fails. -/
theorem C2_counterexample :
    (setSort "semver-desc" (applyFilter ""
        ⟨[⟨.str "1.0.0", .num (qInt 2), .undef, .undef, [], []⟩,
          ⟨.str "1.0.0", .num (qInt 1), .undef, .undef, [], []⟩], [], "build-asc"⟩)).filtered
      ≠ (applyFilter ""
        ⟨[⟨.str "1.0.0", .num (qInt 2), .undef, .undef, [], []⟩,
          ⟨.str "1.0.0", .num (qInt 1), .undef, .undef, [], []⟩], [], "semver-desc"⟩).filtered := by
  decide

/-- C2 (amended): when only the sort key changes, re-sorting the
already-filtered view with the new comparator yields the same sequence
as the full filter-then-sort pipeline, provided no two distinct records
of the filtered view compare as equal under the new comparator (ties
between distinct records keep different insertion orders — see the
counterexample). -/
theorem C2_resort_eq_full_pipeline
    (data fl0 : List Release) (rawq kOld kNew : String) (cOld cNew : Cmp)
    (hOld : sorters kOld = some cOld) (hNew : sorters kNew = some cNew)
    (hnt : ∀ a b : Release, a ∈ data.filter (recMatches (normQuery rawq)) →
      b ∈ data.filter (recMatches (normQuery rawq)) → cmpZ (cNew a b) = .eq → a = b) :
    (setSort kNew (applyFilter rawq ⟨data, fl0, kOld⟩)).filtered
      = (applyFilter rawq ⟨data, fl0, kNew⟩).filtered := by
  have hs : inSorters kNew = true := by unfold inSorters; rw [hNew]; rfl
  show sortView (if inSorters kNew then kNew else kOld)
      (sortView kOld (data.filter (recMatches (normQuery rawq))))
    = sortView kNew (data.filter (recMatches (normQuery rawq)))
  rw [if_pos hs, sortView_of_valid hNew, sortView_of_valid hOld, sortView_of_valid hNew]
  have L := lawful_sorters hNew
  apply eq_of_perm_sorted_anti
  · intro a ha b hb hab hba
    have ha2 : a ∈ data.filter (recMatches (normQuery rawq)) :=
      (jsSortBy_perm cOld _).mem_iff.mp ((jsSortBy_perm cNew _).mem_iff.mp ha)
    have hb2 : b ∈ data.filter (recMatches (normQuery rawq)) :=
      (jsSortBy_perm cOld _).mem_iff.mp ((jsSortBy_perm cNew _).mem_iff.mp hb)
    apply hnt a b ha2 hb2
    have h1 : cmpZ (cNew a b) ≠ .gt := (cmpLe_iff cNew a b).mp hab
    have h2 : cmpZ (cNew b a) ≠ .gt := (cmpLe_iff cNew b a).mp hba
    have h3 := L.symm a b
    cases hv : cmpZ (cNew a b) with
    | eq => rfl
    | gt => exact absurd hv h1
    | lt =>
      exfalso
      apply h2
      rw [hv] at h3
      rw [← ordSwap_invol (cmpZ (cNew b a)), ← h3]
      rfl
  · exact ((jsSortBy_perm cNew _).trans (jsSortBy_perm cOld _)).trans
      (jsSortBy_perm cNew _).symm
  · exact jsSortBy_sorted hNew _
  · exact jsSortBy_sorted hNew _

/-- Witness for C2's amended theorem at a concrete one-record dataset. -/
theorem C2_resort_eq_full_pipeline_witness :
    (setSort "semver-desc" (applyFilter ""
        ⟨[⟨.str "2.0.0", .num (qInt 5), .undef, .undef, [], []⟩], [], "build-asc"⟩)).filtered
      = (applyFilter ""
        ⟨[⟨.str "2.0.0", .num (qInt 5), .undef, .undef, [], []⟩], [], "semver-desc"⟩).filtered := by
  apply C2_resort_eq_full_pipeline [⟨.str "2.0.0", .num (qInt 5), .undef, .undef, [], []⟩]
    [] "" "build-asc" "semver-desc" buildAsc semverDesc rfl rfl
  intro a b ha hb _
  have hl : ([⟨.str "2.0.0", .num (qInt 5), .undef, .undef, [], []⟩] : List Release).filter
      (recMatches (normQuery ""))
      = [⟨.str "2.0.0", .num (qInt 5), .undef, .undef, [], []⟩] := by decide
  rw [hl] at ha hb
  rw [List.mem_singleton.mp ha, List.mem_singleton.mp hb]

/-- C3 counterexample: `date-desc` applied to two records with no dates
and no builds returns `NaN` (`-Infinity - -Infinity` falls through `||`
into another `-Infinity - -Infinity`), so "never an undefined/NaN
result" is false. -/
theorem C3_counterexample :
    sorters "date-desc" = some dateDesc
    ∧ dateDesc ⟨.str "1.0.0", .undef, .undef, .undef, [], []⟩
        ⟨.str "2.0.0", .undef, .undef, .undef, [], []⟩ = .nan :=
  ⟨rfl, by decide⟩

/-- C3 (amended): every comparator in the registry is a total function,
and swapping its two arguments negates the raw result — with `NaN`
mapping to `NaN` — so the sign the sort routine sees (`NaN` coerced to
equal) is exactly one of less/equal/greater and flips under swap.  The
raw result can however be `NaN` (see the counterexample), so the
claim's "never an undefined/NaN result" does not hold. -/
theorem C3_comparators_antisymmetric {k : String} {c : Cmp} (h : sorters k = some c)
    (a b : Release) :
    c b a = jsNegate (c a b) ∧ cmpZ (c b a) = (cmpZ (c a b)).swap :=
  ⟨sorters_neg h a b, (lawful_sorters h).symm b a⟩

/-- Witness for C3's amended theorem on `date-desc` at two concrete
records. -/
theorem C3_comparators_antisymmetric_witness :
    dateDesc ⟨.str "2.0.0", .undef, .str "2021-01-01", .undef, [], []⟩
        ⟨.str "1.0.0", .undef, .str "2020-01-01", .undef, [], []⟩
      = jsNegate (dateDesc ⟨.str "1.0.0", .undef, .str "2020-01-01", .undef, [], []⟩
        ⟨.str "2.0.0", .undef, .str "2021-01-01", .undef, [], []⟩)
    ∧ cmpZ (dateDesc ⟨.str "2.0.0", .undef, .str "2021-01-01", .undef, [], []⟩
        ⟨.str "1.0.0", .undef, .str "2020-01-01", .undef, [], []⟩)
      = (cmpZ (dateDesc ⟨.str "1.0.0", .undef, .str "2020-01-01", .undef, [], []⟩
        ⟨.str "2.0.0", .undef, .str "2021-01-01", .undef, [], []⟩)).swap :=
  @C3_comparators_antisymmetric "date-desc" dateDesc rfl
    ⟨.str "1.0.0", .undef, .str "2020-01-01", .undef, [], []⟩
    ⟨.str "2.0.0", .undef, .str "2021-01-01", .undef, [], []⟩

/-- C4 counterexample: the claim says the pre-release field of
`"1.2.3-beta-1"` is the entire text after the first dash, `"beta-1"`;
the code destructures `split('-')` as `[core, pre='']`, so the
pre-release is only `"beta"`. -/
theorem C4_counterexample :
    (svParse (.str "1.2.3-beta-1")).pre = "beta".toList
    ∧ (svParse (.str "1.2.3-beta-1")).pre ≠ "beta-1".toList := by
  refine ⟨by decide, by decide⟩

/-- C4 (amended): for every version string whose (v-stripped) text
contains a dash, the numeric core is the text before the first dash,
and the parsed pre-release is the text between the first and the second
dash — anything after a second dash is discarded. -/
theorem C4_split_at_dashes (s : String)
    (h : '-' ∈ stripLeadV (jsOrEmpty (.str s)).toList) :
    (splitChar '-' (stripLeadV (jsOrEmpty (.str s)).toList)).headD []
        = (stripLeadV (jsOrEmpty (.str s)).toList).takeWhile (fun c => decide (c ≠ '-'))
    ∧ (svParse (.str s)).pre
        = (((stripLeadV (jsOrEmpty (.str s)).toList).dropWhile
            (fun c => decide (c ≠ '-'))).drop 1).takeWhile (fun c => decide (c ≠ '-')) := by
  constructor
  · rw [splitChar_mem h]
    rfl
  · rw [svParse_pre, splitChar_mem h]
    set rest := ((stripLeadV (jsOrEmpty (.str s)).toList).dropWhile
      (fun c => decide (c ≠ '-'))).drop 1
    cases hsp : splitChar '-' rest with
    | nil => exact absurd hsp (splitChar_ne_nil '-' rest)
    | cons a t =>
      have ha : a = rest.takeWhile (fun c => decide (c ≠ '-')) := by
        by_cases hm : '-' ∈ rest
        · have h2 := splitChar_mem hm
          rw [hsp] at h2
          simp only [List.cons.injEq] at h2
          exact h2.1
        · have h2 := splitChar_not_mem hm
          rw [hsp] at h2
          simp only [List.cons.injEq] at h2
          rw [h2.1, takeWhile_of_not_mem hm]
      simp [ha]

/-- Witness for C4's amended theorem at `"1.2.3-beta-1"`. -/
theorem C4_split_at_dashes_witness :
    ('-' ∈ stripLeadV (jsOrEmpty (.str "1.2.3-beta-1")).toList)
    ∧ (svParse (.str "1.2.3-beta-1")).pre
        = (((stripLeadV (jsOrEmpty (.str "1.2.3-beta-1")).toList).dropWhile
            (fun c => decide (c ≠ '-'))).drop 1).takeWhile (fun c => decide (c ≠ '-')) :=
  ⟨by decide, (C4_split_at_dashes "1.2.3-beta-1" (by decide)).2⟩

/-- The pre-release rules of `svCmp` when the numeric components are
equal. -/
theorem svCmp_pre_rules (A B : SV) (e0 : A.n0 = B.n0) (e1 : A.n1 = B.n1) (e2 : A.n2 = B.n2) :
    (A.pre ≠ [] ∧ B.pre = [] → svCmp A B = -1)
    ∧ (A.pre = [] ∧ B.pre ≠ [] → svCmp A B = 1)
    ∧ (A.pre ≠ [] ∧ B.pre ≠ [] → svCmp A B = lexSign A.pre B.pre) := by
  rw [svCmp_pre_level e0 e1 e2]
  refine ⟨?_, ?_, ?_⟩
  · intro hp
    rw [if_pos hp]
  · intro hp
    rw [if_neg (show ¬(A.pre ≠ [] ∧ B.pre = []) from fun hh => hh.1 hp.1), if_pos hp]
  · intro hp
    rw [if_neg (show ¬(A.pre ≠ [] ∧ B.pre = []) from fun hh => hp.2 hh.2),
      if_neg (show ¬(A.pre = [] ∧ B.pre ≠ []) from fun hh => hp.1 hh.1)]
    rfl

/-- C5: when two version strings parse to the same numeric components,
the one WITH a pre-release tag compares smaller (`-1` against `1` the
other way); when both carry tags the result is the sign of plain
lexicographic comparison of the tags; and
`cmpSemver "1.2.3" "1.2.3-beta"` is positive (release > pre-release). -/
theorem C5_prerelease_ordering :
    (∀ a b : String,
      (svParse (.str a)).n0 = (svParse (.str b)).n0 →
      (svParse (.str a)).n1 = (svParse (.str b)).n1 →
      (svParse (.str a)).n2 = (svParse (.str b)).n2 →
      (((svParse (.str a)).pre ≠ [] ∧ (svParse (.str b)).pre = [] →
          cmpSemver (.str a) (.str b) = -1)
        ∧ ((svParse (.str a)).pre = [] ∧ (svParse (.str b)).pre ≠ [] →
          cmpSemver (.str a) (.str b) = 1)
        ∧ ((svParse (.str a)).pre ≠ [] ∧ (svParse (.str b)).pre ≠ [] →
          cmpSemver (.str a) (.str b)
            = lexSign (svParse (.str a)).pre (svParse (.str b)).pre)))
    ∧ 0 < cmpSemver (.str "1.2.3") (.str "1.2.3-beta") := by
  constructor
  · intro a b e0 e1 e2
    exact svCmp_pre_rules (svParse (.str a)) (svParse (.str b)) e0 e1 e2
  · decide

/-- Witness for C5 at two tagged versions with equal numeric parts. -/
theorem C5_prerelease_ordering_witness :
    cmpSemver (.str "1.0.0-alpha") (.str "1.0.0-beta")
      = lexSign (svParse (.str "1.0.0-alpha")).pre (svParse (.str "1.0.0-beta")).pre :=
  (C5_prerelease_ordering.1 "1.0.0-alpha" "1.0.0-beta" (by decide) (by decide) (by decide)).2.2
    ⟨by decide, by decide⟩

/-- C6 counterexample: for the record `{version: "x", build: 0}` and
query `"0"`, the claim's haystack (which keeps a stringified numeric
build `0`) contains `"0"`, so the claimed equivalence demands a match —
but the code's `filter(Boolean)` drops the falsy build `0` and the
record does not match. -/
theorem C6_counterexample :
    ¬ ((recMatches (normQuery "0") ⟨.str "x", .num (qInt 0), .undef, .undef, [], []⟩ = true)
      ↔ (normQuery "0" = ""
        ∨ hasSub (claimHay ⟨.str "x", .num (qInt 0), .undef, .undef, [], []⟩)
            (normQuery "0").toList = true)) := by
  decide

/-- C6 (amended): for records shaped as the data model's text fields
require, a record passes the filter iff the trimmed, lowercased query is
empty or occurs as a substring of the lowercased, space-joined haystack
of version, date, channel, stringified build, changes and tags — where a
field that is absent/empty is skipped, and so is a numeric build equal
to `0` (falsy).  Filtering is total (never throws) by construction. -/
theorem C6_filter_iff_haystack (r : Release) (raw : String) (h : recWF r = true) :
    recMatches (normQuery raw) r = true
      ↔ (normQuery raw = "" ∨ hasSub (amendHay r) (normQuery raw).toList = true) := by
  unfold recMatches
  by_cases hq : normQuery raw = ""
  · rw [if_pos hq]
    simp [hq]
  · rw [if_neg hq, hayOf_eq h]
    simp [hq]

/-- Witness for C6's amended theorem: a case-insensitive query matching
through a `changes` entry. -/
theorem C6_filter_iff_haystack_witness :
    recWF ⟨.str "Alpha", .undef, .undef, .undef, ["beta fix"], []⟩ = true
    ∧ (recMatches (normQuery " BETA")
          ⟨.str "Alpha", .undef, .undef, .undef, ["beta fix"], []⟩ = true
      ↔ (normQuery " BETA" = ""
        ∨ hasSub (amendHay ⟨.str "Alpha", .undef, .undef, .undef, ["beta fix"], []⟩)
            (normQuery " BETA").toList = true)) :=
  ⟨by decide, C6_filter_iff_haystack _ _ (by decide)⟩

/-- C7: missing or unparseable `build`/`date` values normalize to
`-Infinity` (never throwing, by totality of the model), and records with
builds `[3, 1, undefined, 2]` sorted by `build-desc` come out in the
order `[3, 2, 1, undefined]` — the undefined build sorts as the lowest
key. -/
theorem C7_missing_fields_sort_lowest :
    toBuild .undef = .negInf ∧ toBuild (.str "abc") = .negInf
    ∧ toDate .undef = .negInf ∧ toDate (.str "abc") = .negInf
    ∧ jsSortBy buildDesc
        [⟨.undef, .num (qInt 3), .undef, .undef, [], []⟩,
         ⟨.undef, .num (qInt 1), .undef, .undef, [], []⟩,
         ⟨.undef, .undef, .undef, .undef, [], []⟩,
         ⟨.undef, .num (qInt 2), .undef, .undef, [], []⟩]
      = [⟨.undef, .num (qInt 3), .undef, .undef, [], []⟩,
         ⟨.undef, .num (qInt 2), .undef, .undef, [], []⟩,
         ⟨.undef, .num (qInt 1), .undef, .undef, [], []⟩,
         ⟨.undef, .undef, .undef, .undef, [], []⟩] := by
  refine ⟨by decide, by decide, by decide, by decide, by decide⟩

/-- C8: `pickDefaultSort` selects `build-desc` as soon as one record
has a finitely-numeric build; otherwise `semver-desc` when every
version matches the loose semver shape; otherwise `date-desc`. -/
theorem C8_default_sort_heuristic (arr : List Release) :
    ((∃ r ∈ arr, (jsToNumber r.build).isFin = true) → pickDefaultSort arr = "build-desc")
    ∧ ((∀ r ∈ arr, (jsToNumber r.build).isFin = false) →
        (∀ r ∈ arr, looksLikeSemver r.version = true) → pickDefaultSort arr = "semver-desc")
    ∧ ((∀ r ∈ arr, (jsToNumber r.build).isFin = false) →
        (∃ r ∈ arr, looksLikeSemver r.version = false) → pickDefaultSort arr = "date-desc") := by
  unfold pickDefaultSort
  refine ⟨?_, ?_, ?_⟩
  · intro h
    rcases h with ⟨r, hr, hp⟩
    rw [if_pos (List.any_eq_true.mpr ⟨r, hr, hp⟩)]
  · intro h1 h2
    have hani : ¬ arr.any (fun r => (jsToNumber r.build).isFin) = true := by
      intro hh
      rcases List.any_eq_true.mp hh with ⟨r, hr, hp⟩
      rw [h1 r hr] at hp
      exact absurd hp (by decide)
    rw [if_neg hani, if_pos (List.all_eq_true.mpr h2)]
  · intro h1 h2
    have hani : ¬ arr.any (fun r => (jsToNumber r.build).isFin) = true := by
      intro hh
      rcases List.any_eq_true.mp hh with ⟨r, hr, hp⟩
      rw [h1 r hr] at hp
      exact absurd hp (by decide)
    have hall : ¬ arr.all (fun r => looksLikeSemver r.version) = true := by
      intro hh
      rcases h2 with ⟨r, hr, hp⟩
      have h3 := List.all_eq_true.mp hh r hr
      rw [hp] at h3
      exact absurd h3 (by decide)
    rw [if_neg hani, if_neg hall]

/-- Witness for C8: non-numeric builds with semver-shaped versions pick
`semver-desc`. -/
theorem C8_default_sort_heuristic_witness :
    pickDefaultSort [⟨.str "1.0.0", .str "x", .undef, .undef, [], []⟩] = "semver-desc" :=
  (C8_default_sort_heuristic _).2.1 (by decide) (by decide)

/-- C9 counterexample: `'constructor'` is not in the comparator
registry, yet JS's `'constructor' in sorters` is true — the name is
inherited from `Object.prototype` — so `setSort('constructor')`
REPLACES the sort key instead of retaining it, refuting the claimed
universal no-op. -/
theorem C9_counterexample :
    sorters "constructor" = none
    ∧ (setSort "constructor" initialState).sort = "constructor"
    ∧ (setSort "constructor" initialState).sort ≠ initialState.sort := by
  refine ⟨rfl, by decide, by decide⟩

/-- C9 (amended): in every reachable session state, selecting a sort
name that is neither a registered key nor an `Object.prototype`
property name is a complete no-op.  For ANY name outside the registry
the order of the filtered view is left unchanged (the inherited
members compare every pair as equal after `NaN` coercion, or the sort
call throws before the view is reassigned — see `sortView`), but an
inherited name such as `'constructor'` passes the `in` test and
replaces the sort key, so only the weaker view-order half of the
original claim holds for those names. -/
theorem C9_unregistered_sort {s : AppState} {v : String}
    (hs : Reachable s) (hv : sorters v = none) :
    (setSort v s).filtered = s.filtered
    ∧ (inSorters v = false → setSort v s = s)
    ∧ (inSorters v = true → (setSort v s).sort = v) := by
  have hfix := reachable_inv hs
  refine ⟨?_, ?_, ?_⟩
  · show sortView (if inSorters v then v else s.sort) s.filtered = s.filtered
    by_cases hb : inSorters v = true
    · rw [if_pos hb]
      show sortView v s.filtered = s.filtered
      unfold sortView
      rw [hv]
    · rw [if_neg hb]
      exact hfix.symm
  · intro hb
    obtain ⟨d, f, k⟩ := s
    have hfix2 : f = sortView k f := hfix
    show (⟨d, sortView (if inSorters v then v else k) f,
        if inSorters v then v else k⟩ : AppState) = ⟨d, f, k⟩
    rw [if_neg (show ¬ inSorters v = true by rw [hb]; exact Bool.false_ne_true),
      ← hfix2]
  · intro hb
    show (if inSorters v then v else s.sort) = v
    rw [if_pos hb]

/-- Witness for C9's amended theorem at the initial state and a name
that is neither registered nor inherited from `Object.prototype`. -/
theorem C9_unregistered_sort_witness :
    (setSort "bogus" initialState).filtered = initialState.filtered
    ∧ setSort "bogus" initialState = initialState :=
  ⟨(@C9_unregistered_sort initialState "bogus" Reachable.init rfl).1,
   (@C9_unregistered_sort initialState "bogus" Reachable.init rfl).2.1 (by decide)⟩

/-- C10: on the empty dataset `some` is false and `every` is vacuously
true, so the heuristic returns `semver-desc` — never `build-desc` or
`date-desc` for zero records. -/
theorem C10_empty_dataset_default :
    pickDefaultSort [] = "semver-desc"
    ∧ pickDefaultSort [] ≠ "build-desc"
    ∧ pickDefaultSort [] ≠ "date-desc" := by
  refine ⟨by decide, by decide, by decide⟩

end AppJs
